import Mathlib

/-!
Verification development for the column engine of
`src/trace_processor/db/column.h` (typed columnar table primitive with
filter and sort operators).

The `Column` operations (`Get`, `IndexOf`, `FilterInto`, `StableSort` and
their slow paths) are translated directly from the source header.  The
collaborators that the header consumes but whose implementation files are
not part of the excerpt (`RowMap`, `SparseVector`, `StringPool`,
`SqlValue`) are modelled from the specification; each such definition
carries a doc comment starting with `Modelled from the spec:`.

Machine integers are modelled as `Int`/`Nat`; the one place where 32-bit
wraparound is observable (`static_cast<uint32_t>` on `value.long_value`
for id columns) is modelled explicitly as reduction modulo `2 ^ 32`.
-/

namespace PerfettoDb

/-- Filter operations on a column, from `FilterOp` in column.h. -/
inductive FilterOp where
  | kEq
  | kNe
  | kGt
  | kLt
  | kGe
  | kLe
  | kIsNull
  | kIsNotNull
  | kLike
deriving DecidableEq

/-- Modelled from the spec: the observable type tags of `SqlValue`
(`SqlValue::Type` in basic_types.h, which is not part of the source
excerpt).  The `Double` tag is never produced nor consumed by the column
engine and is omitted from the model. -/
inductive SqlType where
  | kNull
  | kLong
  | kString
deriving DecidableEq

/-- Modelled from the spec: `SqlValue`, a tagged union with variants
`Null`, `Long(i64)` and `String(view)` (basic_types.h is not part of the
source excerpt; the `Double` variant is never produced nor consumed by
the column engine and is omitted). -/
inductive SqlValue where
  | null
  | long (v : Int)
  | str (s : String)
deriving DecidableEq

/-- Modelled from the spec: the `type` tag observable on a `SqlValue`. -/
def SqlValue.typeTag : SqlValue → SqlType
  | .null => .kNull
  | .long _ => .kLong
  | .str _ => .kString

/-- Modelled from the spec: reading `value.long_value` out of the union.
It is only meaningful when the `Long` variant is stored; the unspecified
result of reading it for another variant is modelled as 0. -/
def SqlValue.longValue : SqlValue → Int
  | .long v => v
  | _ => 0

/-- Modelled from the spec: reading `value.string_value` out of the
union.  It is only meaningful when the `String` variant is stored; for
another variant the unspecified result is modelled as the null view. -/
def SqlValue.stringValue : SqlValue → Option String
  | .str s => some s
  | _ => none

/-- Modelled from the spec: `SqlValue` equality (`operator==`): same type
and same content; a null value compares unequal to every value including
itself. -/
def SqlValue.eqv : SqlValue → SqlValue → Bool
  | .long a, .long b => a == b
  | .str a, .str b => a == b
  | _, _ => false

/-- Modelled from the spec: the strict `SqlValue` ordering (`operator<`)
consumed by `std::lower_bound`/`std::upper_bound` on the sorted
fast path: a null value compares less than every non-null value, values
of equal type compare by content (integers numerically, strings
lexicographically), and across types the tag order `Null < Long < String`
decides. -/
def SqlValue.ltv : SqlValue → SqlValue → Bool
  | .null, .null => false
  | .null, _ => true
  | _, .null => false
  | .long a, .long b => decide (a < b)
  | .long _, .str _ => true
  | .str _, .long _ => false
  | .str a, .str b => decide (a < b)

/-- The C++ conversion `static_cast<uint32_t>` applied to an `int64_t`:
reduction modulo `2 ^ 32`. -/
def u32cast (v : Int) : Nat := (v % (2 ^ 32 : Int)).toNat

/-- Modelled from the spec: `SparseVector<T>::Get`, the null-aware
accessor (`Option<T>`); slots beyond the end are modelled as null.  The
numeric instantiations `int32_t`, `uint32_t` and `int64_t` share a single
model over `Int`, as comparisons against an `int64_t` value promote all
three exactly. -/
def svGet (cells : List (Option Int)) (idx : Nat) : Option Int :=
  cells.getD idx none

/-- Modelled from the spec: `SparseVector<T>::GetNonNull`, whose
precondition is that the slot is non-null and whose result is otherwise
unspecified (the implementation may skip the null check); the unspecified
null-slot result is modelled as 0. -/
def svGetNonNull (cells : List (Option Int)) (idx : Nat) : Int :=
  (cells.getD idx none).getD 0

/-- Modelled from the spec: `base::Optional<T> < int64_t` with
`std::optional` semantics (an empty optional compares less than every
value). -/
def optLtVal (o : Option Int) (v : Int) : Bool :=
  match o with
  | none => true
  | some x => decide (x < v)

/-- Modelled from the spec: `base::Optional<T> == int64_t`; an empty
optional equals no value. -/
def optEqVal (o : Option Int) (v : Int) : Bool :=
  match o with
  | none => false
  | some x => x == v

/-- Modelled from the spec: `base::Optional<T> > int64_t`. -/
def optGtVal (o : Option Int) (v : Int) : Bool :=
  match o with
  | none => false
  | some x => decide (v < x)

/-- Modelled from the spec: `base::Optional<T> != int64_t`. -/
def optNeVal (o : Option Int) (v : Int) : Bool :=
  match o with
  | none => true
  | some x => !(x == v)

/-- Modelled from the spec: `base::Optional<T> <= int64_t`. -/
def optLeVal (o : Option Int) (v : Int) : Bool :=
  match o with
  | none => true
  | some x => decide (x ≤ v)

/-- Modelled from the spec: `base::Optional<T> >= int64_t`. -/
def optGeVal (o : Option Int) (v : Int) : Bool :=
  match o with
  | none => false
  | some x => decide (v ≤ x)

/-- Modelled from the spec: `base::Optional<T> < base::Optional<T>`
(`std::optional` semantics, `None < Some(_)`), the comparison used by the
nullable numeric `StableSort` comparator. -/
def optOptLt (a b : Option Int) : Bool :=
  match a, b with
  | none, none => false
  | none, some _ => true
  | some _, none => false
  | some x, some y => decide (x < y)

/-- Modelled from the spec: `StringPool::Get`, mapping a string id to a
nul-terminated view; `none` models the null/sentinel view whose `data()`
is a null pointer. -/
def poolGet (pool : List (Option String)) (sid : Nat) : Option String :=
  pool.getD sid none

/-- Modelled from the spec: `NullTermStringView` comparison `<`; a null
view compares less than any stored view, stored views compare
lexicographically. -/
def viewLt : Option String → Option String → Bool
  | none, none => false
  | none, some _ => true
  | some _, none => false
  | some a, some b => decide (a < b)

/-- Modelled from the spec: view equality; two null views are equal,
stored views compare by content. -/
def viewEq : Option String → Option String → Bool
  | none, none => true
  | some a, some b => a == b
  | _, _ => false

/-- Modelled from the spec: view `!=`. -/
def viewNe (a b : Option String) : Bool := !(viewEq a b)

/-- Modelled from the spec: view `>` (the reversed strict order). -/
def viewGt (a b : Option String) : Bool := viewLt b a

/-- Modelled from the spec: view `<=` (complement of the reversed strict
order). -/
def viewLe (a b : Option String) : Bool := !(viewLt b a)

/-- Modelled from the spec: view `>=`. -/
def viewGe (a b : Option String) : Bool := !(viewLt a b)

/-- Modelled from the spec: a `RowMap` is conceptually the increasing
sequence of storage indices it contains (or a permutation of such a
sequence when used as a sort index); the three physical representations
(range, bitvector, index vector) are collapsed to that sequence, over
which all RowMap operations are specified. -/
abbrev RowMap := List Nat

/-- Modelled from the spec: `RowMap::Get`, returning `rows[k]` (reads
beyond the end are modelled as 0). -/
def RowMap.get (rm : RowMap) (k : Nat) : Nat := rm.getD k 0

/-- Modelled from the spec: `RowMap::IndexOf`, the position `k` such that
`rows[k]` is the given storage index, or none. -/
def RowMap.indexOfRow (rm : RowMap) (idx : Nat) : Option Nat :=
  (List.range rm.length).find? (fun k => RowMap.get rm k == idx)

/-- Modelled from the spec: `RowMap::Intersect` retains exactly the
entries also present in the other RowMap, keeping their order. -/
def RowMap.intersect (rm other : RowMap) : RowMap :=
  rm.filter (fun x => other.contains x)

/-- Modelled from the spec: the two-RowMap `RowMap::FilterInto` used by
the column slow paths: an entry `k` of `rm` survives iff the predicate
holds of the storage index `rowMap.Get(k)` it projects to (the predicate
receives storage indices, never raw offsets into `rm`). -/
def RowMap.filterInto (rowMap rm : RowMap) (pred : Nat → Bool) : RowMap :=
  rm.filter (fun k => pred (RowMap.get rowMap k))

/-- Modelled from the spec: `RowMap(beg, end)`, the range representation
holding exactly the indices in `[beg, end)`. -/
def RowMap.range (a b : Nat) : RowMap := List.range' a (b - a)

/-- Modelled from the spec: `RowMap::SingleRow`. -/
def RowMap.singleRow (i : Nat) : RowMap := [i]

/-- Modelled from the spec: `RowMap::StableSort(out, cmp)` sorts `out`
stably, comparing entries by applying the strict comparator `cmp` to the
storage indices they project to; per `std::stable_sort` semantics an
element `a` keeps its place before `b` unless `cmp` orders `b` strictly
below `a`.  A stable sort is a unique function of the comparator, so it
is modelled by stable insertion sort. -/
def RowMap.stableSort (rowMap : RowMap) (out : List Nat) (cmp : Nat → Nat → Bool) :
    List Nat :=
  List.insertionSort
    (fun a b => (!(cmp (RowMap.get rowMap b) (RowMap.get rowMap a))) = true) out

/-- Column types, from `Column::ColumnType` in column.h. -/
inductive ColumnType where
  | kInt32
  | kUint32
  | kInt64
  | kString
  | kId
deriving DecidableEq

/-- The `Column` value from column.h: a type tag, the two flags, borrowed
storage and the RowMap view.  The type-erased `void* sparse_vector_` is
split by storage kind: numeric columns read `cells`
(`SparseVector<int32_t/uint32_t/int64_t>`), string columns read `strIds`
(`SparseVector<StringPool::Id>`) together with `pool`, and id columns use
no storage.  Fields not belonging to a column's kind are simply never
read, like the erased pointer behind a foreign cast. -/
structure Column where
  type : ColumnType
  sorted : Bool
  nonNull : Bool
  cells : List (Option Int)
  strIds : List Nat
  pool : List (Option String)
  rowMap : RowMap

/-- From `Column::IsId`. -/
def Column.IsId (c : Column) : Bool := c.type == ColumnType.kId

/-- From `Column::IsNullable`: true iff the `kNonNull` flag is clear. -/
def Column.IsNullable (c : Column) : Bool := !c.nonNull

/-- From `Column::IsSorted`: true iff the `kSorted` flag is set. -/
def Column.IsSorted (c : Column) : Bool := c.sorted

/-- From `Column::type()`: the `SqlValue` type surfaced by this column
(numeric and id columns surface `Long`, string columns `String`). -/
def Column.sqlType (c : Column) : SqlType :=
  match c.type with
  | .kInt32 => .kLong
  | .kUint32 => .kLong
  | .kInt64 => .kLong
  | .kId => .kLong
  | .kString => .kString

/-- From `Column::GetStringPoolStringAtIdx`:
`string_pool_->Get(sparse_vector<StringPool::Id>().GetNonNull(idx))`
(the string id vector is read through `GetNonNull`, modelled with default
id 0 on an undefined slot). -/
def Column.GetStringPoolStringAtIdx (c : Column) (idx : Nat) : Option String :=
  poolGet c.pool (c.strIds.getD idx 0)

/-- From `Column::GetAtIdx`: the value of the column at a storage index.
The three numeric arms of the source switch share one shape and are
collapsed onto the shared numeric storage model. -/
def Column.GetAtIdx (c : Column) (idx : Nat) : SqlValue :=
  match c.type with
  | .kInt32 =>
    match svGet c.cells idx with
    | some v => .long v
    | none => .null
  | .kUint32 =>
    match svGet c.cells idx with
    | some v => .long v
    | none => .null
  | .kInt64 =>
    match svGet c.cells idx with
    | some v => .long v
    | none => .null
  | .kString =>
    match c.GetStringPoolStringAtIdx idx with
    | some s => .str s
    | none => .null
  | .kId => .long idx

/-- From `Column::Get`: `GetAtIdx(row_map().Get(row))`. -/
def Column.Get (c : Column) (row : Nat) : SqlValue :=
  c.GetAtIdx (RowMap.get c.rowMap row)

/-- From `Column::IndexOf`: for `Int32/Uint32/Int64/String` a linear scan
over `0 ≤ i < row_map().size()` returning the first `i` with
`Get(i) == value` under `SqlValue` equality; for `Id` it requires
`value.type == kLong` and returns
`row_map().IndexOf(static_cast<uint32_t>(value.long_value))`. -/
def Column.IndexOf (c : Column) (value : SqlValue) : Option Nat :=
  match c.type with
  | .kInt32 =>
    (List.range c.rowMap.length).find? (fun i => SqlValue.eqv (c.Get i) value)
  | .kUint32 =>
    (List.range c.rowMap.length).find? (fun i => SqlValue.eqv (c.Get i) value)
  | .kInt64 =>
    (List.range c.rowMap.length).find? (fun i => SqlValue.eqv (c.Get i) value)
  | .kString =>
    (List.range c.rowMap.length).find? (fun i => SqlValue.eqv (c.Get i) value)
  | .kId =>
    if value.typeTag = SqlType.kLong then
      RowMap.indexOfRow c.rowMap (u32cast value.longValue)
    else
      none

/-- From `Column::FilterIntoLongSlow<T, is_nullable>`; the three numeric
instantiations share one body.  The `kNe` and `kLe` arms keep the
source's accessor choice exactly as written: the nullable arm calls
`GetNonNull` and the non-nullable arm calls `Get`. -/
def Column.FilterIntoLongSlow (c : Column) (isNullable : Bool) (op : FilterOp)
    (value : SqlValue) (rm : RowMap) : RowMap :=
  if op = FilterOp.kIsNull then
    if isNullable then
      RowMap.filterInto c.rowMap rm (fun row => !(svGet c.cells row).isSome)
    else
      RowMap.intersect rm []
  else if op = FilterOp.kIsNotNull then
    if isNullable then
      RowMap.filterInto c.rowMap rm (fun row => (svGet c.cells row).isSome)
    else
      rm
  else
    match op with
    | .kLt =>
      RowMap.filterInto c.rowMap rm (fun idx =>
        if isNullable then optLtVal (svGet c.cells idx) value.longValue
        else decide (svGetNonNull c.cells idx < value.longValue))
    | .kEq =>
      RowMap.filterInto c.rowMap rm (fun idx =>
        if isNullable then optEqVal (svGet c.cells idx) value.longValue
        else svGetNonNull c.cells idx == value.longValue)
    | .kGt =>
      RowMap.filterInto c.rowMap rm (fun idx =>
        if isNullable then optGtVal (svGet c.cells idx) value.longValue
        else decide (value.longValue < svGetNonNull c.cells idx))
    | .kNe =>
      RowMap.filterInto c.rowMap rm (fun idx =>
        if isNullable then !(svGetNonNull c.cells idx == value.longValue)
        else optNeVal (svGet c.cells idx) value.longValue)
    | .kLe =>
      RowMap.filterInto c.rowMap rm (fun idx =>
        if isNullable then decide (svGetNonNull c.cells idx ≤ value.longValue)
        else optLeVal (svGet c.cells idx) value.longValue)
    | .kGe =>
      RowMap.filterInto c.rowMap rm (fun idx =>
        if isNullable then optGeVal (svGet c.cells idx) value.longValue
        else decide (value.longValue ≤ svGetNonNull c.cells idx))
    | .kLike =>
      RowMap.intersect rm []
    | .kIsNull => rm
    | .kIsNotNull => rm

/-- From `Column::FilterIntoStringSlow` (the final two match arms are
unreachable, guarded above; the source aborts there). -/
def Column.FilterIntoStringSlow (c : Column) (op : FilterOp) (value : SqlValue)
    (rm : RowMap) : RowMap :=
  if op = FilterOp.kIsNull then
    RowMap.filterInto c.rowMap rm (fun row =>
      !(c.GetStringPoolStringAtIdx row).isSome)
  else if op = FilterOp.kIsNotNull then
    RowMap.filterInto c.rowMap rm (fun row =>
      (c.GetStringPoolStringAtIdx row).isSome)
  else
    match op with
    | .kLt =>
      RowMap.filterInto c.rowMap rm (fun idx =>
        viewLt (c.GetStringPoolStringAtIdx idx) value.stringValue)
    | .kEq =>
      RowMap.filterInto c.rowMap rm (fun idx =>
        viewEq (c.GetStringPoolStringAtIdx idx) value.stringValue)
    | .kGt =>
      RowMap.filterInto c.rowMap rm (fun idx =>
        viewGt (c.GetStringPoolStringAtIdx idx) value.stringValue)
    | .kNe =>
      RowMap.filterInto c.rowMap rm (fun idx =>
        viewNe (c.GetStringPoolStringAtIdx idx) value.stringValue)
    | .kLe =>
      RowMap.filterInto c.rowMap rm (fun idx =>
        viewLe (c.GetStringPoolStringAtIdx idx) value.stringValue)
    | .kGe =>
      RowMap.filterInto c.rowMap rm (fun idx =>
        viewGe (c.GetStringPoolStringAtIdx idx) value.stringValue)
    | .kLike => rm
    | .kIsNull => rm
    | .kIsNotNull => rm

/-- From `Column::FilterIntoIdSlow`: numeric comparison of the storage
index against `static_cast<uint32_t>(value.long_value)`. -/
def Column.FilterIntoIdSlow (c : Column) (op : FilterOp) (value : SqlValue)
    (rm : RowMap) : RowMap :=
  if op = FilterOp.kIsNull then
    RowMap.filterInto c.rowMap rm (fun _ => false)
  else if op = FilterOp.kIsNotNull then
    RowMap.filterInto c.rowMap rm (fun _ => true)
  else
    match op with
    | .kLt =>
      RowMap.filterInto c.rowMap rm (fun idx =>
        decide (idx < u32cast value.longValue))
    | .kEq =>
      RowMap.filterInto c.rowMap rm (fun idx =>
        idx == u32cast value.longValue)
    | .kGt =>
      RowMap.filterInto c.rowMap rm (fun idx =>
        decide (u32cast value.longValue < idx))
    | .kNe =>
      RowMap.filterInto c.rowMap rm (fun idx =>
        !(idx == u32cast value.longValue))
    | .kLe =>
      RowMap.filterInto c.rowMap rm (fun idx =>
        decide (idx ≤ u32cast value.longValue))
    | .kGe =>
      RowMap.filterInto c.rowMap rm (fun idx =>
        decide (u32cast value.longValue ≤ idx))
    | .kLike =>
      RowMap.intersect rm []
    | .kIsNull => rm
    | .kIsNotNull => rm

/-- The sorted fast path's `std::lower_bound` over the column iterator
`[0, row_map().size())` whose `k`-th value is `Get(k)`: for a range
partitioned on `(· < value)` — guaranteed by the `Sorted` invariant — the
first position at which `Get(k) < value` fails equals the number of
positions satisfying it. -/
def Column.lowerBoundRow (c : Column) (value : SqlValue) : Nat :=
  (List.range c.rowMap.length).countP (fun k => SqlValue.ltv (c.Get k) value)

/-- The sorted fast path's `std::upper_bound` over the column iterator:
the first position at which `value < Get(k)` holds, equal on a
partitioned range to the number of positions where it fails. -/
def Column.upperBoundRow (c : Column) (value : SqlValue) : Nat :=
  (List.range c.rowMap.length).countP (fun k => !(SqlValue.ltv value (c.Get k)))

/-- From the final `switch (type_)` of `Column::FilterInto`: dispatch to
the type-specialized slow path. -/
def Column.FilterIntoSlow (c : Column) (op : FilterOp) (value : SqlValue)
    (rm : RowMap) : RowMap :=
  match c.type with
  | .kInt32 => c.FilterIntoLongSlow c.IsNullable op value rm
  | .kUint32 => c.FilterIntoLongSlow c.IsNullable op value rm
  | .kInt64 => c.FilterIntoLongSlow c.IsNullable op value rm
  | .kString => c.FilterIntoStringSlow op value rm
  | .kId => c.FilterIntoIdSlow op value rm

/-- From `Column::FilterInto`: the id-equality fast path, then the sorted
binary-search fast path (for `kEq/kLe/kLt/kGe/kGt` when the value's type
matches the column's; the remaining operators fall through), then the
type-specialized slow path. -/
def Column.FilterInto (c : Column) (op : FilterOp) (value : SqlValue)
    (rm : RowMap) : RowMap :=
  if c.IsId = true ∧ op = FilterOp.kEq then
    match c.IndexOf value with
    | some idx => RowMap.intersect rm (RowMap.singleRow idx)
    | none => RowMap.intersect rm []
  else if c.IsSorted = true ∧ value.typeTag = c.sqlType then
    match op with
    | .kEq =>
      RowMap.intersect rm
        (RowMap.range (c.lowerBoundRow value) (c.upperBoundRow value))
    | .kLe =>
      RowMap.intersect rm (RowMap.range 0 (c.upperBoundRow value))
    | .kLt =>
      RowMap.intersect rm (RowMap.range 0 (c.lowerBoundRow value))
    | .kGe =>
      RowMap.intersect rm (RowMap.range (c.lowerBoundRow value) c.rowMap.length)
    | .kGt =>
      RowMap.intersect rm (RowMap.range (c.upperBoundRow value) c.rowMap.length)
    | _ => c.FilterIntoSlow op value rm
  else
    c.FilterIntoSlow op value rm

/-- The comparator the source's `StableSort` lambdas hand to
`RowMap::StableSort`, indexed by the column type, nullability and `desc`
(the operands are swapped when descending); its arguments are storage
indices. -/
def Column.sortCmp (c : Column) (desc : Bool) : Nat → Nat → Bool :=
  match c.type with
  | .kInt32 =>
    if c.IsNullable then
      fun a b =>
        if desc then optOptLt (svGet c.cells b) (svGet c.cells a)
        else optOptLt (svGet c.cells a) (svGet c.cells b)
    else
      fun a b =>
        if desc then decide (svGetNonNull c.cells b < svGetNonNull c.cells a)
        else decide (svGetNonNull c.cells a < svGetNonNull c.cells b)
  | .kUint32 =>
    if c.IsNullable then
      fun a b =>
        if desc then optOptLt (svGet c.cells b) (svGet c.cells a)
        else optOptLt (svGet c.cells a) (svGet c.cells b)
    else
      fun a b =>
        if desc then decide (svGetNonNull c.cells b < svGetNonNull c.cells a)
        else decide (svGetNonNull c.cells a < svGetNonNull c.cells b)
  | .kInt64 =>
    if c.IsNullable then
      fun a b =>
        if desc then optOptLt (svGet c.cells b) (svGet c.cells a)
        else optOptLt (svGet c.cells a) (svGet c.cells b)
    else
      fun a b =>
        if desc then decide (svGetNonNull c.cells b < svGetNonNull c.cells a)
        else decide (svGetNonNull c.cells a < svGetNonNull c.cells b)
  | .kString =>
    fun a b =>
      if desc then viewLt (c.GetStringPoolStringAtIdx b) (c.GetStringPoolStringAtIdx a)
      else viewLt (c.GetStringPoolStringAtIdx a) (c.GetStringPoolStringAtIdx b)
  | .kId =>
    fun a b => if desc then decide (b < a) else decide (a < b)

/-- From `Column::StableSort`: dispatch on the column type (and on
nullability for numeric types) and invoke `row_map().StableSort` with the
corresponding comparator. -/
def Column.StableSort (c : Column) (desc : Bool) (out : List Nat) : List Nat :=
  RowMap.stableSort c.rowMap out (c.sortCmp desc)

/-- A nullable, unsorted `Int64` column holding a single null cell, over
the identity RowMap `[0, 1)`. -/
def nullCellCol : Column :=
  { type := ColumnType.kInt64, sorted := false, nonNull := false,
    cells := [none], strIds := [], pool := [], rowMap := [0] }

/-- A `Sorted`, nullable `Int64` column with cells `[None, 5]` (the null
sorts first, satisfying the `Sorted` invariant) over the identity RowMap
`[0, 2)`. -/
def sortedNullCol : Column :=
  { type := ColumnType.kInt64, sorted := true, nonNull := false,
    cells := [none, some 5], strIds := [], pool := [], rowMap := [0, 1] }

/-- An id column over the identity RowMap `[0, 3)`, carrying the flags
`IdColumn` installs (`Sorted` and `NonNull`). -/
def idCol3 : Column :=
  { type := ColumnType.kId, sorted := true, nonNull := true,
    cells := [], strIds := [], pool := [], rowMap := [0, 1, 2] }

/-- An id column over the identity RowMap `[0, 5)` (scenario `S6`). -/
def idCol5 : Column :=
  { type := ColumnType.kId, sorted := true, nonNull := true,
    cells := [], strIds := [], pool := [], rowMap := [0, 1, 2, 3, 4] }

/-- An id column whose RowMap contains the storage index `2 ^ 32 - 1`,
witnessing the negative-value wraparound of the u32 cast. -/
def idColWrap : Column :=
  { type := ColumnType.kId, sorted := true, nonNull := true,
    cells := [], strIds := [], pool := [], rowMap := [0, 1, 4294967295] }

/-- The scenario `S5` column: a `Sorted`, non-null `Int64` column with
values `[1, 3, 3, 5, 7]` over the identity RowMap `[0, 5)`. -/
def s5Col : Column :=
  { type := ColumnType.kInt64, sorted := true, nonNull := true,
    cells := [some 1, some 3, some 3, some 5, some 7], strIds := [], pool := [],
    rowMap := [0, 1, 2, 3, 4] }

/-- The scenario `S1`-`S4` column: a nullable, unsorted `Int64` column
with values `[10, 20, 20, None, 30]` over the identity RowMap `[0, 5)`. -/
def s4Col : Column :=
  { type := ColumnType.kInt64, sorted := false, nonNull := false,
    cells := [some 10, some 20, some 20, none, some 30], strIds := [], pool := [],
    rowMap := [0, 1, 2, 3, 4] }

end PerfettoDb
namespace PerfettoDb

/-- Asymmetry of the modelled `SqlValue` strict order. -/
theorem SqlValue.ltv_asymm {a b : SqlValue} (h : SqlValue.ltv a b = true) :
    SqlValue.ltv b a = false := by
  cases a <;> cases b <;>
    simp_all only [SqlValue.ltv, decide_eq_true_eq, decide_eq_false_iff_not]
  · omega
  · exact lt_asymm h

/-- If `a ≤ b` (no strict drop from `b` to `a`) and `b < c` then `a < c`. -/
theorem SqlValue.ltv_lelt_trans {a b c : SqlValue}
    (h1 : SqlValue.ltv b a = false) (h2 : SqlValue.ltv b c = true) :
    SqlValue.ltv a c = true := by
  cases a <;> cases b <;> cases c <;>
    simp_all only [SqlValue.ltv, decide_eq_true_eq, decide_eq_false_iff_not,
      Bool.true_eq_false, Bool.false_eq_true] <;> try trivial
  · omega
  · exact lt_of_le_of_lt (not_lt.mp h1) h2

/-- If `x < y` and `y ≤ z` (no strict drop from `z` to `y`) then `x < z`. -/
theorem SqlValue.ltv_ltle_trans {x y z : SqlValue}
    (h1 : SqlValue.ltv x y = true) (h2 : SqlValue.ltv z y = false) :
    SqlValue.ltv x z = true := by
  cases x <;> cases y <;> cases z <;>
    simp_all only [SqlValue.ltv, decide_eq_true_eq, decide_eq_false_iff_not,
      Bool.true_eq_false, Bool.false_eq_true] <;> try trivial
  · omega
  · exact lt_of_lt_of_le h1 (not_lt.mp h2)

/-- On a range whose prefix satisfies a downward-closed predicate, a
position satisfies the predicate exactly when it lies below the count of
satisfying positions (the binary-search threshold). -/
theorem countP_range_iff {p : Nat → Bool} {n k : Nat}
    (hdc : ∀ i j, i ≤ j → j < n → p j = true → p i = true) (hk : k < n) :
    k < (List.range n).countP p ↔ p k = true := by
  constructor
  · intro h
    by_contra hp
    have hpk : p k = false := by revert hp; cases p k <;> simp
    have hsplit : List.range n = List.range' 0 k ++ List.range' k (n - k) := by
      rw [List.range_eq_range']
      have happ := List.range'_append 0 k (n - k) 1
      simp only [Nat.zero_add, Nat.one_mul] at happ
      have hnk : n - k + k = n := by omega
      rw [hnk] at happ
      exact happ.symm
    rw [hsplit, List.countP_append] at h
    have h1 : (List.range' 0 k).countP p ≤ k := by
      have := @List.countP_le_length _ p (List.range' 0 k)
      simpa [List.length_range'] using this
    have h2 : (List.range' k (n - k)).countP p = 0 := by
      apply List.countP_eq_zero.mpr
      intro j hj hpj
      have hj' := List.mem_range'_1.mp hj
      have : p k = true := hdc k j hj'.1 (by omega) hpj
      simp [hpk] at this
    omega
  · intro hp
    have hall : ∀ a ∈ List.range (k + 1), p a = true := by
      intro a ha
      have ha' := List.mem_range.mp ha
      exact hdc a k (by omega) hk hp
    have hcnt : (List.range (k + 1)).countP p = k + 1 := by
      rw [List.countP_eq_length.mpr hall, List.length_range]
    have hsub : (List.range (k + 1)).Sublist (List.range n) :=
      List.range_sublist.mpr hk
    have := List.Sublist.countP_le p hsub
    omega

/-- Characterization of `find?` over `range'`: it returns exactly the
first position in the range satisfying the predicate. -/
theorem find?_range'_eq_some {p : Nat → Bool} {n s k : Nat} :
    (List.range' s n).find? p = some k ↔
      s ≤ k ∧ k < s + n ∧ p k = true ∧ ∀ j, s ≤ j → j < k → p j = false := by
  induction n generalizing s with
  | zero =>
    simp only [List.range']
    constructor
    · intro h; simp at h
    · rintro ⟨h1, h2, -⟩; omega
  | succ m ih =>
    rw [List.range'_succ]
    by_cases hps : p s = true
    · rw [List.find?_cons_of_pos _ hps]
      constructor
      · intro h
        have hk : s = k := by injection h
        subst hk
        exact ⟨le_refl _, by omega, hps, fun j hj1 hj2 => by omega⟩
      · rintro ⟨h1, h2, h3, h4⟩
        by_cases hks : k = s
        · subst hks; rfl
        · have := h4 s (le_refl _) (by omega)
          simp [hps] at this
    · rw [List.find?_cons_of_neg _ hps]
      rw [ih]
      have hps' : p s = false := by revert hps; cases p s <;> simp
      constructor
      · rintro ⟨h1, h2, h3, h4⟩
        refine ⟨by omega, by omega, h3, ?_⟩
        intro j hj1 hj2
        by_cases hjs : j = s
        · subst hjs; exact hps'
        · exact h4 j (by omega) hj2
      · rintro ⟨h1, h2, h3, h4⟩
        have hks : k ≠ s := by
          intro hk; subst hk; simp [h3] at hps'
        refine ⟨by omega, by omega, h3, ?_⟩
        intro j hj1 hj2
        exact h4 j (by omega) hj2

/-- Intersection with a range RowMap filters by the range bounds. -/
theorem intersect_range_eq_filter {rm : RowMap} {a b : Nat} (hab : a ≤ b) :
    RowMap.intersect rm (RowMap.range a b) =
      rm.filter (fun k => decide (a ≤ k ∧ k < b)) := by
  unfold RowMap.intersect RowMap.range
  apply List.filter_congr
  intro x hx
  by_cases hmem : x ∈ List.range' a (b - a)
  · have hx' := List.mem_range'_1.mp hmem
    have h1 : (List.range' a (b - a)).contains x = true := List.elem_iff.mpr hmem
    rw [h1]
    exact (decide_eq_true ⟨hx'.1, by omega⟩).symm
  · have h1 : (List.range' a (b - a)).contains x = false :=
      Bool.eq_false_iff.mpr (fun hc => hmem (List.elem_iff.mp hc))
    rw [h1]
    refine (decide_eq_false ?_).symm
    intro hc
    exact hmem (List.mem_range'_1.mpr ⟨hc.1, by omega⟩)

/-- Intersection with the empty RowMap is empty. -/
theorem intersect_nil (rm : RowMap) : RowMap.intersect rm [] = [] := by
  unfold RowMap.intersect
  simp

end PerfettoDb
namespace PerfettoDb

/-- The numeric column types (those dispatching to `FilterIntoLongSlow`). -/
def Column.IsNumeric (c : Column) : Prop :=
  c.type = ColumnType.kInt32 ∨ c.type = ColumnType.kUint32 ∨ c.type = ColumnType.kInt64

/-- A numeric column's `Get` reads the shared numeric storage. -/
theorem Column.get_numeric {c : Column} (h : c.IsNumeric) (k : Nat) :
    c.Get k =
      (match svGet c.cells (RowMap.get c.rowMap k) with
       | some v => SqlValue.long v
       | none => SqlValue.null) := by
  rcases h with h | h | h <;> simp [Column.Get, Column.GetAtIdx, h]

/-- A string column's `Get` reads the pool view. -/
theorem Column.get_string {c : Column} (h : c.type = ColumnType.kString) (k : Nat) :
    c.Get k =
      (match c.GetStringPoolStringAtIdx (RowMap.get c.rowMap k) with
       | some s => SqlValue.str s
       | none => SqlValue.null) := by
  simp [Column.Get, Column.GetAtIdx, h]

/-- An id column's `Get` surfaces the RowMap entry itself. -/
theorem Column.get_id {c : Column} (h : c.type = ColumnType.kId) (k : Nat) :
    c.Get k = SqlValue.long (RowMap.get c.rowMap k) := by
  simp [Column.Get, Column.GetAtIdx, h]

/-- Below the lower bound exactly the cells strictly less than the value. -/
theorem lt_lowerBound_iff {c : Column} {value : SqlValue} {k : Nat}
    (hmono : ∀ i j, i ≤ j → j < c.rowMap.length →
      SqlValue.ltv (c.Get j) (c.Get i) = false)
    (hk : k < c.rowMap.length) :
    k < c.lowerBoundRow value ↔ SqlValue.ltv (c.Get k) value = true := by
  unfold Column.lowerBoundRow
  exact countP_range_iff
    (fun i j hij hj hpj => SqlValue.ltv_lelt_trans (hmono i j hij hj) hpj) hk

/-- Below the upper bound exactly the cells not strictly above the value. -/
theorem lt_upperBound_iff {c : Column} {value : SqlValue} {k : Nat}
    (hmono : ∀ i j, i ≤ j → j < c.rowMap.length →
      SqlValue.ltv (c.Get j) (c.Get i) = false)
    (hk : k < c.rowMap.length) :
    k < c.upperBoundRow value ↔ SqlValue.ltv value (c.Get k) = false := by
  unfold Column.upperBoundRow
  have h := @countP_range_iff (fun k => !(SqlValue.ltv value (c.Get k)))
    c.rowMap.length k (fun i j hij hj hpj => ?_) hk
  · rw [h]
    cases hx : SqlValue.ltv value (c.Get k) <;> simp [hx]
  · simp only [Bool.not_eq_true'] at hpj ⊢
    cases hx : SqlValue.ltv value (c.Get i)
    · rfl
    · have := SqlValue.ltv_ltle_trans hx (hmono i j hij hj)
      rw [this] at hpj
      exact hpj

theorem lowerBound_le_length (c : Column) (value : SqlValue) :
    c.lowerBoundRow value ≤ c.rowMap.length := by
  unfold Column.lowerBoundRow
  have := @List.countP_le_length _ (fun k => SqlValue.ltv (c.Get k) value)
    (List.range c.rowMap.length)
  simpa using this

theorem upperBound_le_length (c : Column) (value : SqlValue) :
    c.upperBoundRow value ≤ c.rowMap.length := by
  unfold Column.upperBoundRow
  have := @List.countP_le_length _ (fun k => !(SqlValue.ltv value (c.Get k)))
    (List.range c.rowMap.length)
  simpa using this

theorem lowerBound_le_upperBound (c : Column) (value : SqlValue) :
    c.lowerBoundRow value ≤ c.upperBoundRow value := by
  unfold Column.lowerBoundRow Column.upperBoundRow
  apply List.countP_mono_left
  intro x hx hp
  simp only [Bool.not_eq_true']
  exact SqlValue.ltv_asymm hp

/-- Unwrapping `GetNonNull` on a slot known to hold a value. -/
theorem svGetNonNull_eq_of_some {cells : List (Option Int)} {idx : Nat} {xv : Int}
    (h : svGet cells idx = some xv) : svGetNonNull cells idx = xv := by
  unfold svGet at h
  unfold svGetNonNull
  rw [h]
  rfl

end PerfettoDb
namespace PerfettoDb

/-- On a numeric `Sorted` column whose value sequence is non-decreasing,
the binary-search fast path agrees with `FilterIntoLongSlow`, for the
five fast-path operators; nullable columns additionally need every
accessed cell non-null when the operator is `kLe` (the `kNe`/`kLe`
accessor inversion makes the slow path read `GetNonNull` there), and
`NonNull` columns carry their invariant that no accessed cell is null. -/
theorem fastSlow_numeric {c : Column} {v : Int} {op : FilterOp} {rm : RowMap}
    (hty : c.IsNumeric)
    (hsorted : c.sorted = true)
    (hop : op = FilterOp.kEq ∨ op = FilterOp.kLt ∨ op = FilterOp.kLe ∨
      op = FilterOp.kGe ∨ op = FilterOp.kGt)
    (hvalid : ∀ k ∈ rm, k < c.rowMap.length)
    (hmono : ∀ i j, i ≤ j → j < c.rowMap.length →
      SqlValue.ltv (c.Get j) (c.Get i) = false)
    (hnn : c.nonNull = true ∨ op = FilterOp.kLe →
      ∀ k, k < c.rowMap.length → (svGet c.cells (RowMap.get c.rowMap k)).isSome = true) :
    c.FilterInto op (SqlValue.long v) rm = c.FilterIntoSlow op (SqlValue.long v) rm := by
  have hban : ¬(c.IsId = true ∧ op = FilterOp.kEq) := by
    rintro ⟨h1, -⟩
    rcases hty with h | h | h <;> simp [Column.IsId, h] at h1
  have htype : (SqlValue.long v).typeTag = c.sqlType := by
    rcases hty with h | h | h <;> simp [SqlValue.typeTag, Column.sqlType, h]
  have hslow : c.FilterIntoSlow op (SqlValue.long v) rm =
      c.FilterIntoLongSlow c.IsNullable op (SqlValue.long v) rm := by
    rcases hty with h | h | h <;> simp [Column.FilterIntoSlow, h]
  rw [hslow]
  unfold Column.FilterInto
  rw [if_neg hban, if_pos ⟨(by simp [Column.IsSorted, hsorted]), htype⟩]
  have hpw : ∀ x, x < c.rowMap.length →
      ((x < c.lowerBoundRow (SqlValue.long v) ↔
        optLtVal (svGet c.cells (RowMap.get c.rowMap x)) v = true) ∧
       (x < c.upperBoundRow (SqlValue.long v) ↔
        optLeVal (svGet c.cells (RowMap.get c.rowMap x)) v = true)) := by
    intro x hkx
    constructor
    · rw [lt_lowerBound_iff hmono hkx, Column.get_numeric hty]
      cases hsv : svGet c.cells (RowMap.get c.rowMap x) <;>
        simp [hsv, SqlValue.ltv, optLtVal]
    · rw [lt_upperBound_iff hmono hkx, Column.get_numeric hty]
      cases hsv : svGet c.cells (RowMap.get c.rowMap x) <;>
        simp [hsv, SqlValue.ltv, optLeVal, Int.not_lt]
  rcases hop with rfl | rfl | rfl | rfl | rfl
  · -- kEq
    show RowMap.intersect rm (RowMap.range (c.lowerBoundRow (SqlValue.long v))
        (c.upperBoundRow (SqlValue.long v))) = _
    rw [intersect_range_eq_filter (lowerBound_le_upperBound c _)]
    unfold Column.FilterIntoLongSlow
    rw [if_neg (by decide : ¬(FilterOp.kEq = FilterOp.kIsNull)),
      if_neg (by decide : ¬(FilterOp.kEq = FilterOp.kIsNotNull))]
    show _ = RowMap.filterInto c.rowMap rm _
    unfold RowMap.filterInto
    apply List.filter_congr
    intro x hx
    have hkx := hvalid x hx
    obtain ⟨hlb, hub⟩ := hpw x hkx
    by_cases hnul : c.nonNull = true
    · obtain ⟨xv, hxv⟩ := Option.isSome_iff_exists.mp (hnn (Or.inl hnul) x hkx)
      rw [hxv] at hlb hub
      simp only [optLtVal, optLeVal, decide_eq_true_eq] at hlb hub
      simp only [Column.IsNullable, hnul, Bool.not_true, Bool.false_eq_true,
        if_false, SqlValue.longValue, svGetNonNull_eq_of_some hxv]
      apply Bool.eq_iff_iff.mpr
      simp only [decide_eq_true_eq, beq_iff_eq]
      omega
    · have hnul' : c.nonNull = false := by revert hnul; cases c.nonNull <;> simp
      simp only [Column.IsNullable, hnul', Bool.not_false, if_true,
        SqlValue.longValue]
      cases hsv : svGet c.cells (RowMap.get c.rowMap x)
      · rw [hsv] at hlb hub
        simp only [optLtVal, optLeVal, eq_self_iff_true, iff_true] at hlb hub
        apply Bool.eq_iff_iff.mpr
        simp only [decide_eq_true_eq, optEqVal, Bool.false_eq_true, iff_false]
        omega
      · rw [hsv] at hlb hub
        simp only [optLtVal, optLeVal, decide_eq_true_eq] at hlb hub
        apply Bool.eq_iff_iff.mpr
        simp only [decide_eq_true_eq, optEqVal, hsv, beq_iff_eq]
        omega
  · -- kLt
    show RowMap.intersect rm (RowMap.range 0 (c.lowerBoundRow (SqlValue.long v))) = _
    rw [intersect_range_eq_filter (Nat.zero_le _)]
    unfold Column.FilterIntoLongSlow
    rw [if_neg (by decide : ¬(FilterOp.kLt = FilterOp.kIsNull)),
      if_neg (by decide : ¬(FilterOp.kLt = FilterOp.kIsNotNull))]
    show _ = RowMap.filterInto c.rowMap rm _
    unfold RowMap.filterInto
    apply List.filter_congr
    intro x hx
    have hkx := hvalid x hx
    obtain ⟨hlb, hub⟩ := hpw x hkx
    by_cases hnul : c.nonNull = true
    · obtain ⟨xv, hxv⟩ := Option.isSome_iff_exists.mp (hnn (Or.inl hnul) x hkx)
      rw [hxv] at hlb hub
      simp only [optLtVal, optLeVal, decide_eq_true_eq] at hlb hub
      simp only [Column.IsNullable, hnul, Bool.not_true, Bool.false_eq_true,
        if_false, SqlValue.longValue, svGetNonNull_eq_of_some hxv]
      apply Bool.eq_iff_iff.mpr
      simp only [decide_eq_true_eq]
      omega
    · have hnul' : c.nonNull = false := by revert hnul; cases c.nonNull <;> simp
      simp only [Column.IsNullable, hnul', Bool.not_false, if_true,
        SqlValue.longValue]
      cases hsv : svGet c.cells (RowMap.get c.rowMap x)
      · rw [hsv] at hlb hub
        simp only [optLtVal, optLeVal, eq_self_iff_true, iff_true] at hlb hub
        apply Bool.eq_iff_iff.mpr
        simp only [decide_eq_true_eq, optLtVal, hsv, eq_self_iff_true, iff_true]
        omega
      · rw [hsv] at hlb hub
        simp only [optLtVal, optLeVal, decide_eq_true_eq] at hlb hub
        apply Bool.eq_iff_iff.mpr
        simp only [decide_eq_true_eq, optLtVal, hsv]
        omega
  · -- kLe
    show RowMap.intersect rm (RowMap.range 0 (c.upperBoundRow (SqlValue.long v))) = _
    rw [intersect_range_eq_filter (Nat.zero_le _)]
    unfold Column.FilterIntoLongSlow
    rw [if_neg (by decide : ¬(FilterOp.kLe = FilterOp.kIsNull)),
      if_neg (by decide : ¬(FilterOp.kLe = FilterOp.kIsNotNull))]
    show _ = RowMap.filterInto c.rowMap rm _
    unfold RowMap.filterInto
    apply List.filter_congr
    intro x hx
    have hkx := hvalid x hx
    obtain ⟨hlb, hub⟩ := hpw x hkx
    obtain ⟨xv, hxv⟩ := Option.isSome_iff_exists.mp (hnn (Or.inr rfl) x hkx)
    rw [hxv] at hlb hub
    simp only [optLtVal, optLeVal, decide_eq_true_eq] at hlb hub
    by_cases hnul : c.nonNull = true
    · simp only [Column.IsNullable, hnul, Bool.not_true, Bool.false_eq_true,
        if_false, SqlValue.longValue, optLeVal, hxv]
      apply Bool.eq_iff_iff.mpr
      simp only [decide_eq_true_eq]
      omega
    · have hnul' : c.nonNull = false := by revert hnul; cases c.nonNull <;> simp
      simp only [Column.IsNullable, hnul', Bool.not_false, if_true,
        SqlValue.longValue, svGetNonNull_eq_of_some hxv]
      apply Bool.eq_iff_iff.mpr
      simp only [decide_eq_true_eq]
      omega
  · -- kGe
    show RowMap.intersect rm (RowMap.range (c.lowerBoundRow (SqlValue.long v))
        c.rowMap.length) = _
    rw [intersect_range_eq_filter (lowerBound_le_length c _)]
    unfold Column.FilterIntoLongSlow
    rw [if_neg (by decide : ¬(FilterOp.kGe = FilterOp.kIsNull)),
      if_neg (by decide : ¬(FilterOp.kGe = FilterOp.kIsNotNull))]
    show _ = RowMap.filterInto c.rowMap rm _
    unfold RowMap.filterInto
    apply List.filter_congr
    intro x hx
    have hkx := hvalid x hx
    obtain ⟨hlb, hub⟩ := hpw x hkx
    by_cases hnul : c.nonNull = true
    · obtain ⟨xv, hxv⟩ := Option.isSome_iff_exists.mp (hnn (Or.inl hnul) x hkx)
      rw [hxv] at hlb hub
      simp only [optLtVal, optLeVal, decide_eq_true_eq] at hlb hub
      simp only [Column.IsNullable, hnul, Bool.not_true, Bool.false_eq_true,
        if_false, SqlValue.longValue, svGetNonNull_eq_of_some hxv]
      apply Bool.eq_iff_iff.mpr
      simp only [decide_eq_true_eq]
      omega
    · have hnul' : c.nonNull = false := by revert hnul; cases c.nonNull <;> simp
      simp only [Column.IsNullable, hnul', Bool.not_false, if_true,
        SqlValue.longValue]
      cases hsv : svGet c.cells (RowMap.get c.rowMap x)
      · rw [hsv] at hlb hub
        simp only [optLtVal, optLeVal, eq_self_iff_true, iff_true] at hlb hub
        apply Bool.eq_iff_iff.mpr
        simp only [decide_eq_true_eq, optGeVal, Bool.false_eq_true, iff_false]
        omega
      · rw [hsv] at hlb hub
        simp only [optLtVal, optLeVal, decide_eq_true_eq] at hlb hub
        apply Bool.eq_iff_iff.mpr
        simp only [decide_eq_true_eq, optGeVal, hsv]
        omega
  · -- kGt
    show RowMap.intersect rm (RowMap.range (c.upperBoundRow (SqlValue.long v))
        c.rowMap.length) = _
    rw [intersect_range_eq_filter (upperBound_le_length c _)]
    unfold Column.FilterIntoLongSlow
    rw [if_neg (by decide : ¬(FilterOp.kGt = FilterOp.kIsNull)),
      if_neg (by decide : ¬(FilterOp.kGt = FilterOp.kIsNotNull))]
    show _ = RowMap.filterInto c.rowMap rm _
    unfold RowMap.filterInto
    apply List.filter_congr
    intro x hx
    have hkx := hvalid x hx
    obtain ⟨hlb, hub⟩ := hpw x hkx
    by_cases hnul : c.nonNull = true
    · obtain ⟨xv, hxv⟩ := Option.isSome_iff_exists.mp (hnn (Or.inl hnul) x hkx)
      rw [hxv] at hlb hub
      simp only [optLtVal, optLeVal, decide_eq_true_eq] at hlb hub
      simp only [Column.IsNullable, hnul, Bool.not_true, Bool.false_eq_true,
        if_false, SqlValue.longValue, svGetNonNull_eq_of_some hxv]
      apply Bool.eq_iff_iff.mpr
      simp only [decide_eq_true_eq]
      omega
    · have hnul' : c.nonNull = false := by revert hnul; cases c.nonNull <;> simp
      simp only [Column.IsNullable, hnul', Bool.not_false, if_true,
        SqlValue.longValue]
      cases hsv : svGet c.cells (RowMap.get c.rowMap x)
      · rw [hsv] at hlb hub
        simp only [optLtVal, optLeVal, eq_self_iff_true, iff_true] at hlb hub
        apply Bool.eq_iff_iff.mpr
        simp only [decide_eq_true_eq, optGtVal, Bool.false_eq_true, iff_false]
        omega
      · rw [hsv] at hlb hub
        simp only [optLtVal, optLeVal, decide_eq_true_eq] at hlb hub
        apply Bool.eq_iff_iff.mpr
        simp only [decide_eq_true_eq, optGtVal, hsv]
        omega

end PerfettoDb
namespace PerfettoDb

/-- On a `Sorted` string column whose view sequence is non-decreasing,
the binary-search fast path agrees with `FilterIntoStringSlow` for the
five fast-path operators (null views sort below every stored view on
both paths). -/
theorem fastSlow_string {c : Column} {sv : String} {op : FilterOp} {rm : RowMap}
    (hty : c.type = ColumnType.kString)
    (hsorted : c.sorted = true)
    (hop : op = FilterOp.kEq ∨ op = FilterOp.kLt ∨ op = FilterOp.kLe ∨
      op = FilterOp.kGe ∨ op = FilterOp.kGt)
    (hvalid : ∀ k ∈ rm, k < c.rowMap.length)
    (hmono : ∀ i j, i ≤ j → j < c.rowMap.length →
      SqlValue.ltv (c.Get j) (c.Get i) = false) :
    c.FilterInto op (SqlValue.str sv) rm = c.FilterIntoSlow op (SqlValue.str sv) rm := by
  have hban : ¬(c.IsId = true ∧ op = FilterOp.kEq) := by
    rintro ⟨h1, -⟩
    simp [Column.IsId, hty] at h1
  have htype : (SqlValue.str sv).typeTag = c.sqlType := by
    simp [SqlValue.typeTag, Column.sqlType, hty]
  have hslow : c.FilterIntoSlow op (SqlValue.str sv) rm =
      c.FilterIntoStringSlow op (SqlValue.str sv) rm := by
    simp [Column.FilterIntoSlow, hty]
  rw [hslow]
  unfold Column.FilterInto
  rw [if_neg hban, if_pos ⟨(by simp [Column.IsSorted, hsorted]), htype⟩]
  have hG1 : ∀ x, SqlValue.ltv (c.Get x) (SqlValue.str sv) =
      viewLt (c.GetStringPoolStringAtIdx (RowMap.get c.rowMap x)) (some sv) := by
    intro x
    rw [Column.get_string hty]
    cases hs : c.GetStringPoolStringAtIdx (RowMap.get c.rowMap x) <;>
      simp [SqlValue.ltv, viewLt]
  have hG2 : ∀ x, SqlValue.ltv (SqlValue.str sv) (c.Get x) =
      viewLt (some sv) (c.GetStringPoolStringAtIdx (RowMap.get c.rowMap x)) := by
    intro x
    rw [Column.get_string hty]
    cases hs : c.GetStringPoolStringAtIdx (RowMap.get c.rowMap x) <;>
      simp [SqlValue.ltv, viewLt]
  have hLB : ∀ x, x < c.rowMap.length →
      (x < c.lowerBoundRow (SqlValue.str sv) ↔
       viewLt (c.GetStringPoolStringAtIdx (RowMap.get c.rowMap x)) (some sv) = true) := by
    intro x hkx
    rw [lt_lowerBound_iff hmono hkx, hG1]
  have hUB : ∀ x, x < c.rowMap.length →
      (x < c.upperBoundRow (SqlValue.str sv) ↔
       viewLt (some sv) (c.GetStringPoolStringAtIdx (RowMap.get c.rowMap x)) = false) := by
    intro x hkx
    rw [lt_upperBound_iff hmono hkx, hG2]
  rcases hop with rfl | rfl | rfl | rfl | rfl
  · -- kEq
    show RowMap.intersect rm (RowMap.range (c.lowerBoundRow (SqlValue.str sv))
        (c.upperBoundRow (SqlValue.str sv))) = _
    rw [intersect_range_eq_filter (lowerBound_le_upperBound c _)]
    unfold Column.FilterIntoStringSlow
    rw [if_neg (by decide : ¬(FilterOp.kEq = FilterOp.kIsNull)),
      if_neg (by decide : ¬(FilterOp.kEq = FilterOp.kIsNotNull))]
    show _ = RowMap.filterInto c.rowMap rm _
    unfold RowMap.filterInto
    apply List.filter_congr
    intro x hx
    have hkx := hvalid x hx
    have hlb := hLB x hkx
    have hub := hUB x hkx
    apply Bool.eq_iff_iff.mpr
    rw [decide_eq_true_eq]
    simp only [SqlValue.stringValue]
    cases hs : c.GetStringPoolStringAtIdx (RowMap.get c.rowMap x)
    · rw [hs] at hlb hub
      simp only [viewLt, iff_true] at hlb
      simp only [viewEq, Bool.false_eq_true, iff_false]
      omega
    case some a =>
      rw [hs] at hlb hub
      simp only [viewLt, decide_eq_true_eq, decide_eq_false_iff_not] at hlb hub
      simp only [viewEq, beq_iff_eq]
      constructor
      · rintro ⟨h1, h2⟩
        have ha1 : ¬(a < sv) := fun hc => absurd (hlb.mpr hc) (by omega)
        have ha2 : ¬(sv < a) := hub.mp h2
        exact le_antisymm (not_lt.mp ha2) (not_lt.mp ha1)
      · intro h
        have h1 : ¬(x < c.lowerBoundRow (SqlValue.str sv)) := by
          intro hc
          have := hlb.mp hc
          rw [h] at this
          exact lt_irrefl sv this
        have h2 : x < c.upperBoundRow (SqlValue.str sv) := by
          apply hub.mpr
          rw [h]
          exact lt_irrefl sv
        omega
  · -- kLt
    show RowMap.intersect rm (RowMap.range 0 (c.lowerBoundRow (SqlValue.str sv))) = _
    rw [intersect_range_eq_filter (Nat.zero_le _)]
    unfold Column.FilterIntoStringSlow
    rw [if_neg (by decide : ¬(FilterOp.kLt = FilterOp.kIsNull)),
      if_neg (by decide : ¬(FilterOp.kLt = FilterOp.kIsNotNull))]
    show _ = RowMap.filterInto c.rowMap rm _
    unfold RowMap.filterInto
    apply List.filter_congr
    intro x hx
    have hkx := hvalid x hx
    have hlb := hLB x hkx
    apply Bool.eq_iff_iff.mpr
    rw [decide_eq_true_eq]
    simp only [SqlValue.stringValue]
    rw [← hlb]
    omega
  · -- kLe
    show RowMap.intersect rm (RowMap.range 0 (c.upperBoundRow (SqlValue.str sv))) = _
    rw [intersect_range_eq_filter (Nat.zero_le _)]
    unfold Column.FilterIntoStringSlow
    rw [if_neg (by decide : ¬(FilterOp.kLe = FilterOp.kIsNull)),
      if_neg (by decide : ¬(FilterOp.kLe = FilterOp.kIsNotNull))]
    show _ = RowMap.filterInto c.rowMap rm _
    unfold RowMap.filterInto
    apply List.filter_congr
    intro x hx
    have hkx := hvalid x hx
    have hub := hUB x hkx
    apply Bool.eq_iff_iff.mpr
    rw [decide_eq_true_eq]
    simp only [SqlValue.stringValue, viewLe, Bool.not_eq_true']
    rw [← hub]
    omega
  · -- kGe
    show RowMap.intersect rm (RowMap.range (c.lowerBoundRow (SqlValue.str sv))
        c.rowMap.length) = _
    rw [intersect_range_eq_filter (lowerBound_le_length c _)]
    unfold Column.FilterIntoStringSlow
    rw [if_neg (by decide : ¬(FilterOp.kGe = FilterOp.kIsNull)),
      if_neg (by decide : ¬(FilterOp.kGe = FilterOp.kIsNotNull))]
    show _ = RowMap.filterInto c.rowMap rm _
    unfold RowMap.filterInto
    apply List.filter_congr
    intro x hx
    have hkx := hvalid x hx
    have hlb := hLB x hkx
    apply Bool.eq_iff_iff.mpr
    rw [decide_eq_true_eq]
    simp only [SqlValue.stringValue, viewGe, Bool.not_eq_true']
    cases hv : viewLt (c.GetStringPoolStringAtIdx (RowMap.get c.rowMap x)) (some sv) <;>
      simp [hv] at hlb ⊢ <;> omega
  · -- kGt
    show RowMap.intersect rm (RowMap.range (c.upperBoundRow (SqlValue.str sv))
        c.rowMap.length) = _
    rw [intersect_range_eq_filter (upperBound_le_length c _)]
    unfold Column.FilterIntoStringSlow
    rw [if_neg (by decide : ¬(FilterOp.kGt = FilterOp.kIsNull)),
      if_neg (by decide : ¬(FilterOp.kGt = FilterOp.kIsNotNull))]
    show _ = RowMap.filterInto c.rowMap rm _
    unfold RowMap.filterInto
    apply List.filter_congr
    intro x hx
    have hkx := hvalid x hx
    have hub := hUB x hkx
    apply Bool.eq_iff_iff.mpr
    rw [decide_eq_true_eq]
    simp only [SqlValue.stringValue, viewGt]
    cases hv : viewLt (some sv) (c.GetStringPoolStringAtIdx (RowMap.get c.rowMap x)) <;>
      simp [hv] at hub ⊢ <;> omega

end PerfettoDb
namespace PerfettoDb

/-- Reading a RowMap position in bounds is `List.get`. -/
theorem rowGet_eq_get {rm : RowMap} {k : Nat} (h : k < rm.length) :
    RowMap.get rm k = List.get rm ⟨k, h⟩ := by
  unfold RowMap.get
  rw [List.getD_eq_getElem?_getD, List.getElem?_eq_getElem h]
  rfl

/-- On an id column (`Sorted`, duplicate-free RowMap) the fast paths of
`FilterInto` agree with `FilterIntoIdSlow` for the five fast-path
operators, provided the queried value lies in `[0, 2^32)` so that the
slow path's u32 cast is the identity. -/
theorem fastSlow_id {c : Column} {v : Int} {op : FilterOp} {rm : RowMap}
    (hty : c.type = ColumnType.kId)
    (hsorted : c.sorted = true)
    (hop : op = FilterOp.kEq ∨ op = FilterOp.kLt ∨ op = FilterOp.kLe ∨
      op = FilterOp.kGe ∨ op = FilterOp.kGt)
    (hvalid : ∀ k ∈ rm, k < c.rowMap.length)
    (hmono : ∀ i j, i ≤ j → j < c.rowMap.length →
      SqlValue.ltv (c.Get j) (c.Get i) = false)
    (hnd : c.rowMap.Nodup)
    (hcast : 0 ≤ v ∧ v < 2 ^ 32) :
    c.FilterInto op (SqlValue.long v) rm = c.FilterIntoSlow op (SqlValue.long v) rm := by
  obtain ⟨hv0, hv1⟩ := hcast
  have hcv : u32cast v = v.toNat := by
    unfold u32cast
    rw [Int.emod_eq_of_lt hv0 hv1]
  have hslow : c.FilterIntoSlow op (SqlValue.long v) rm =
      c.FilterIntoIdSlow op (SqlValue.long v) rm := by
    simp [Column.FilterIntoSlow, hty]
  rw [hslow]
  have htype : (SqlValue.long v).typeTag = c.sqlType := by
    simp [SqlValue.typeTag, Column.sqlType, hty]
  rcases hop with rfl | rfl | rfl | rfl | rfl
  · -- kEq: the id-equality fast path via IndexOf
    unfold Column.FilterInto
    rw [if_pos ⟨(by simp [Column.IsId, hty]), rfl⟩]
    unfold Column.FilterIntoIdSlow
    rw [if_neg (by decide : ¬(FilterOp.kEq = FilterOp.kIsNull)),
      if_neg (by decide : ¬(FilterOp.kEq = FilterOp.kIsNotNull))]
    have hidx : c.IndexOf (SqlValue.long v) =
        RowMap.indexOfRow c.rowMap (u32cast v) := by
      simp [Column.IndexOf, hty, SqlValue.typeTag, SqlValue.longValue]
    rw [hidx]
    show _ = RowMap.filterInto c.rowMap rm _
    unfold RowMap.filterInto
    simp only [SqlValue.longValue]
    cases hfind : RowMap.indexOfRow c.rowMap (u32cast v)
    case none =>
      show RowMap.intersect rm [] = _
      rw [intersect_nil]
      symm
      apply List.filter_eq_nil_iff.mpr
      intro x hx
      unfold RowMap.indexOfRow at hfind
      rw [List.range_eq_range'] at hfind
      have hxr : x ∈ List.range' 0 c.rowMap.length :=
        List.mem_range'_1.mpr ⟨Nat.zero_le _, by simpa using hvalid x hx⟩
      exact List.find?_eq_none.mp hfind x hxr
    case some idx =>
      show RowMap.intersect rm (RowMap.singleRow idx) = _
      unfold RowMap.indexOfRow at hfind
      rw [List.range_eq_range'] at hfind
      obtain ⟨-, hlt, hpk, -⟩ := find?_range'_eq_some.mp hfind
      unfold RowMap.intersect RowMap.singleRow
      apply List.filter_congr
      intro y hy
      have hyn := hvalid y hy
      by_cases hyi : y = idx
      · subst hyi
        have h2 : (RowMap.get c.rowMap y == u32cast v) = true := hpk
        simp [h2]
      · have h2 : (RowMap.get c.rowMap y == u32cast v) = false := by
          apply Bool.eq_false_iff.mpr
          intro hc
          apply hyi
          have hidx' : idx < c.rowMap.length := by simpa using hlt
          have he1 : List.get c.rowMap ⟨y, hyn⟩ = List.get c.rowMap ⟨idx, hidx'⟩ := by
            rw [← rowGet_eq_get hyn, ← rowGet_eq_get hidx']
            rw [beq_iff_eq] at hc hpk
            rw [hc, hpk]
          exact congrArg Fin.val ((List.Nodup.get_inj_iff hnd).mp he1)
        simp [h2, hyi]
  · -- kLt
    unfold Column.FilterInto
    rw [if_neg (by rintro ⟨-, h⟩; exact absurd h (by decide)),
      if_pos ⟨(by simp [Column.IsSorted, hsorted]), htype⟩]
    show RowMap.intersect rm (RowMap.range 0 (c.lowerBoundRow (SqlValue.long v))) = _
    rw [intersect_range_eq_filter (Nat.zero_le _)]
    unfold Column.FilterIntoIdSlow
    rw [if_neg (by decide : ¬(FilterOp.kLt = FilterOp.kIsNull)),
      if_neg (by decide : ¬(FilterOp.kLt = FilterOp.kIsNotNull))]
    show _ = RowMap.filterInto c.rowMap rm _
    unfold RowMap.filterInto
    apply List.filter_congr
    intro x hx
    have hkx := hvalid x hx
    have hlb := @lt_lowerBound_iff c (SqlValue.long v) x hmono hkx
    rw [Column.get_id hty] at hlb
    simp only [SqlValue.ltv, decide_eq_true_eq] at hlb
    apply Bool.eq_iff_iff.mpr
    simp only [decide_eq_true_eq, SqlValue.longValue, hcv]
    omega
  · -- kLe
    unfold Column.FilterInto
    rw [if_neg (by rintro ⟨-, h⟩; exact absurd h (by decide)),
      if_pos ⟨(by simp [Column.IsSorted, hsorted]), htype⟩]
    show RowMap.intersect rm (RowMap.range 0 (c.upperBoundRow (SqlValue.long v))) = _
    rw [intersect_range_eq_filter (Nat.zero_le _)]
    unfold Column.FilterIntoIdSlow
    rw [if_neg (by decide : ¬(FilterOp.kLe = FilterOp.kIsNull)),
      if_neg (by decide : ¬(FilterOp.kLe = FilterOp.kIsNotNull))]
    show _ = RowMap.filterInto c.rowMap rm _
    unfold RowMap.filterInto
    apply List.filter_congr
    intro x hx
    have hkx := hvalid x hx
    have hub := @lt_upperBound_iff c (SqlValue.long v) x hmono hkx
    rw [Column.get_id hty] at hub
    simp only [SqlValue.ltv, decide_eq_false_iff_not] at hub
    apply Bool.eq_iff_iff.mpr
    simp only [decide_eq_true_eq, SqlValue.longValue, hcv]
    omega
  · -- kGe
    unfold Column.FilterInto
    rw [if_neg (by rintro ⟨-, h⟩; exact absurd h (by decide)),
      if_pos ⟨(by simp [Column.IsSorted, hsorted]), htype⟩]
    show RowMap.intersect rm
      (RowMap.range (c.lowerBoundRow (SqlValue.long v)) c.rowMap.length) = _
    rw [intersect_range_eq_filter (lowerBound_le_length c _)]
    unfold Column.FilterIntoIdSlow
    rw [if_neg (by decide : ¬(FilterOp.kGe = FilterOp.kIsNull)),
      if_neg (by decide : ¬(FilterOp.kGe = FilterOp.kIsNotNull))]
    show _ = RowMap.filterInto c.rowMap rm _
    unfold RowMap.filterInto
    apply List.filter_congr
    intro x hx
    have hkx := hvalid x hx
    have hlb := @lt_lowerBound_iff c (SqlValue.long v) x hmono hkx
    rw [Column.get_id hty] at hlb
    simp only [SqlValue.ltv, decide_eq_true_eq] at hlb
    apply Bool.eq_iff_iff.mpr
    simp only [decide_eq_true_eq, SqlValue.longValue, hcv]
    omega
  · -- kGt
    unfold Column.FilterInto
    rw [if_neg (by rintro ⟨-, h⟩; exact absurd h (by decide)),
      if_pos ⟨(by simp [Column.IsSorted, hsorted]), htype⟩]
    show RowMap.intersect rm
      (RowMap.range (c.upperBoundRow (SqlValue.long v)) c.rowMap.length) = _
    rw [intersect_range_eq_filter (upperBound_le_length c _)]
    unfold Column.FilterIntoIdSlow
    rw [if_neg (by decide : ¬(FilterOp.kGt = FilterOp.kIsNull)),
      if_neg (by decide : ¬(FilterOp.kGt = FilterOp.kIsNotNull))]
    show _ = RowMap.filterInto c.rowMap rm _
    unfold RowMap.filterInto
    apply List.filter_congr
    intro x hx
    have hkx := hvalid x hx
    have hub := @lt_upperBound_iff c (SqlValue.long v) x hmono hkx
    rw [Column.get_id hty] at hub
    simp only [SqlValue.ltv, decide_eq_false_iff_not] at hub
    apply Bool.eq_iff_iff.mpr
    simp only [decide_eq_true_eq, SqlValue.longValue, hcv]
    omega

end PerfettoDb
namespace PerfettoDb

/-- C2 (amended).  On every `Sorted` column with `value.type ==
column.type()` and `op ∈ {Eq, Lt, Le, Ge, Gt}`, `FilterInto` (the
binary-search fast path, or the `IndexOf` fast path for id equality)
produces the same RowMap as the type-specialized slow path, provided:
the entries of `rm` are valid rows; the row-coordinate value sequence is
non-decreasing (the `Sorted` invariant); on a numeric column every
accessed cell is non-null whenever the `NonNull` flag is set (its
invariant) or `op = Le` (whose nullable slow arm reads `GetNonNull`, the
accessor inversion); and on an id column the RowMap is duplicate-free
and the value lies in `[0, 2^32)` (the slow path casts the value to
`uint32_t`, the fast path compares it untruncated). -/
theorem c2_sorted_fastPath_eq_slowPath
    (c : Column) (value : SqlValue) (op : FilterOp) (rm : RowMap)
    (hsorted : c.sorted = true)
    (htype : value.typeTag = c.sqlType)
    (hop : op = FilterOp.kEq ∨ op = FilterOp.kLt ∨ op = FilterOp.kLe ∨
      op = FilterOp.kGe ∨ op = FilterOp.kGt)
    (hvalid : ∀ k ∈ rm, k < c.rowMap.length)
    (hmono : ∀ j, j < c.rowMap.length → ∀ i, i ≤ j →
      SqlValue.ltv (c.Get j) (c.Get i) = false)
    (hnum : c.IsNumeric → (c.nonNull = true ∨ op = FilterOp.kLe) →
      ∀ k, k < c.rowMap.length → (svGet c.cells (RowMap.get c.rowMap k)).isSome = true)
    (hid : c.type = ColumnType.kId →
      c.rowMap.Nodup ∧ 0 ≤ value.longValue ∧ value.longValue < 2 ^ 32) :
    c.FilterInto op value rm = c.FilterIntoSlow op value rm := by
  have hmono' : ∀ i j, i ≤ j → j < c.rowMap.length →
      SqlValue.ltv (c.Get j) (c.Get i) = false :=
    fun i j hij hj => hmono j hj i hij
  cases hty : c.type
  case kInt32 =>
    cases value with
    | null => simp [SqlValue.typeTag, Column.sqlType, hty] at htype
    | str s => simp [SqlValue.typeTag, Column.sqlType, hty] at htype
    | long v =>
      exact fastSlow_numeric (Or.inl hty) hsorted hop hvalid hmono'
        (hnum (Or.inl hty))
  case kUint32 =>
    cases value with
    | null => simp [SqlValue.typeTag, Column.sqlType, hty] at htype
    | str s => simp [SqlValue.typeTag, Column.sqlType, hty] at htype
    | long v =>
      exact fastSlow_numeric (Or.inr (Or.inl hty)) hsorted hop hvalid hmono'
        (hnum (Or.inr (Or.inl hty)))
  case kInt64 =>
    cases value with
    | null => simp [SqlValue.typeTag, Column.sqlType, hty] at htype
    | str s => simp [SqlValue.typeTag, Column.sqlType, hty] at htype
    | long v =>
      exact fastSlow_numeric (Or.inr (Or.inr hty)) hsorted hop hvalid hmono'
        (hnum (Or.inr (Or.inr hty)))
  case kString =>
    cases value with
    | null => simp [SqlValue.typeTag, Column.sqlType, hty] at htype
    | long v => simp [SqlValue.typeTag, Column.sqlType, hty] at htype
    | str s => exact fastSlow_string hty hsorted hop hvalid hmono'
  case kId =>
    cases value with
    | null => simp [SqlValue.typeTag, Column.sqlType, hty] at htype
    | str s => simp [SqlValue.typeTag, Column.sqlType, hty] at htype
    | long v =>
      obtain ⟨hnd, hc⟩ := hid hty
      exact fastSlow_id hty hsorted hop hvalid hmono' hnd
        (by simpa [SqlValue.longValue] using hc)

/-- C2, counterexample to the claim as stated: the fast path and the
type-specialized slow path disagree (i) on a `Sorted` id column for
`Lt` with the out-of-range value `-1` (the slow path truncates it to
`2^32 - 1` and keeps every row, the binary search keeps none), and
(ii) on a `Sorted` nullable `Int64` column with a null cell for `Le`
(the inverted slow arm reads `GetNonNull` of the null slot — modelled
as 0 — and drops the null row that the binary search keeps). -/
theorem c2_sorted_fastPath_counterexample :
    (Column.FilterInto idCol3 FilterOp.kLt (SqlValue.long (-1)) [0, 1, 2] = [] ∧
     Column.FilterIntoSlow idCol3 FilterOp.kLt (SqlValue.long (-1)) [0, 1, 2] =
       [0, 1, 2]) ∧
    (Column.FilterInto sortedNullCol FilterOp.kLe (SqlValue.long (-1)) [0, 1] = [0] ∧
     Column.FilterIntoSlow sortedNullCol FilterOp.kLe (SqlValue.long (-1)) [0, 1] =
       []) := by
  decide

/-- C2 witness: the amended equivalence applied to the `S5` scenario
(`Sorted` non-null `Int64` column `[1, 3, 3, 5, 7]`, `Ge 3`), whose
result is `Range(1, 5)`. -/
theorem c2_sorted_fastPath_eq_slowPath_witness :
    Column.FilterInto s5Col FilterOp.kGe (SqlValue.long 3) [0, 1, 2, 3, 4] =
      Column.FilterIntoSlow s5Col FilterOp.kGe (SqlValue.long 3) [0, 1, 2, 3, 4] ∧
    Column.FilterInto s5Col FilterOp.kGe (SqlValue.long 3) [0, 1, 2, 3, 4] =
      [1, 2, 3, 4] :=
  ⟨c2_sorted_fastPath_eq_slowPath s5Col (SqlValue.long 3) FilterOp.kGe
      [0, 1, 2, 3, 4] rfl rfl (Or.inr (Or.inr (Or.inr (Or.inl rfl))))
      (by decide) (by decide) (fun _ _ => by decide)
      (fun h => absurd h (by decide)),
    by decide⟩

end PerfettoDb
namespace PerfettoDb

/-- Equation for the `kEq` arm of the numeric slow path. -/
theorem longSlow_kEq (c : Column) (b : Bool) (value : SqlValue) (rm : RowMap) :
    c.FilterIntoLongSlow b FilterOp.kEq value rm =
      RowMap.filterInto c.rowMap rm (fun idx =>
        if b then optEqVal (svGet c.cells idx) value.longValue
        else svGetNonNull c.cells idx == value.longValue) := rfl

/-- Equation for the `kLt` arm of the numeric slow path. -/
theorem longSlow_kLt (c : Column) (b : Bool) (value : SqlValue) (rm : RowMap) :
    c.FilterIntoLongSlow b FilterOp.kLt value rm =
      RowMap.filterInto c.rowMap rm (fun idx =>
        if b then optLtVal (svGet c.cells idx) value.longValue
        else decide (svGetNonNull c.cells idx < value.longValue)) := rfl

/-- Equation for the `kGt` arm of the numeric slow path. -/
theorem longSlow_kGt (c : Column) (b : Bool) (value : SqlValue) (rm : RowMap) :
    c.FilterIntoLongSlow b FilterOp.kGt value rm =
      RowMap.filterInto c.rowMap rm (fun idx =>
        if b then optGtVal (svGet c.cells idx) value.longValue
        else decide (value.longValue < svGetNonNull c.cells idx)) := rfl

/-- Equation for the `kGe` arm of the numeric slow path. -/
theorem longSlow_kGe (c : Column) (b : Bool) (value : SqlValue) (rm : RowMap) :
    c.FilterIntoLongSlow b FilterOp.kGe value rm =
      RowMap.filterInto c.rowMap rm (fun idx =>
        if b then optGeVal (svGet c.cells idx) value.longValue
        else decide (value.longValue ≤ svGetNonNull c.cells idx)) := rfl

/-- Equation for the `kEq` arm of the string slow path. -/
theorem stringSlow_kEq (c : Column) (value : SqlValue) (rm : RowMap) :
    c.FilterIntoStringSlow FilterOp.kEq value rm =
      RowMap.filterInto c.rowMap rm (fun idx =>
        viewEq (c.GetStringPoolStringAtIdx idx) value.stringValue) := rfl

/-- Equation for the `kLt` arm of the string slow path. -/
theorem stringSlow_kLt (c : Column) (value : SqlValue) (rm : RowMap) :
    c.FilterIntoStringSlow FilterOp.kLt value rm =
      RowMap.filterInto c.rowMap rm (fun idx =>
        viewLt (c.GetStringPoolStringAtIdx idx) value.stringValue) := rfl

/-- Equation for the `kGt` arm of the string slow path. -/
theorem stringSlow_kGt (c : Column) (value : SqlValue) (rm : RowMap) :
    c.FilterIntoStringSlow FilterOp.kGt value rm =
      RowMap.filterInto c.rowMap rm (fun idx =>
        viewGt (c.GetStringPoolStringAtIdx idx) value.stringValue) := rfl

/-- Equation for the `kGe` arm of the string slow path. -/
theorem stringSlow_kGe (c : Column) (value : SqlValue) (rm : RowMap) :
    c.FilterIntoStringSlow FilterOp.kGe value rm =
      RowMap.filterInto c.rowMap rm (fun idx =>
        viewGe (c.GetStringPoolStringAtIdx idx) value.stringValue) := rfl

/-- On an unsorted numeric column `FilterInto` is the numeric slow path. -/
theorem filterInto_unsorted_numeric {c : Column} (hty : c.IsNumeric)
    (hns : c.sorted = false) (op : FilterOp) (value : SqlValue) (rm : RowMap) :
    c.FilterInto op value rm = c.FilterIntoLongSlow c.IsNullable op value rm := by
  have hban : ¬(c.IsId = true ∧ op = FilterOp.kEq) := by
    rintro ⟨h1, -⟩
    rcases hty with h | h | h <;> simp [Column.IsId, h] at h1
  have hsor : ¬(c.IsSorted = true ∧ value.typeTag = c.sqlType) := by
    rintro ⟨h1, -⟩
    simp [Column.IsSorted, hns] at h1
  unfold Column.FilterInto
  rw [if_neg hban, if_neg hsor]
  rcases hty with h | h | h <;> simp [Column.FilterIntoSlow, h]

/-- On an unsorted string column `FilterInto` is the string slow path. -/
theorem filterInto_unsorted_string {c : Column} (hty : c.type = ColumnType.kString)
    (hns : c.sorted = false) (op : FilterOp) (value : SqlValue) (rm : RowMap) :
    c.FilterInto op value rm = c.FilterIntoStringSlow op value rm := by
  have hban : ¬(c.IsId = true ∧ op = FilterOp.kEq) := by
    rintro ⟨h1, -⟩
    simp [Column.IsId, hty] at h1
  have hsor : ¬(c.IsSorted = true ∧ value.typeTag = c.sqlType) := by
    rintro ⟨h1, -⟩
    simp [Column.IsSorted, hns] at h1
  unfold Column.FilterInto
  rw [if_neg hban, if_neg hsor]
  simp [Column.FilterIntoSlow, hty]

/-- On a numeric column queried with the null value, `FilterInto` is the
numeric slow path (the sorted fast path requires a matching value type). -/
theorem filterInto_nullvalue_numeric {c : Column} (hty : c.IsNumeric)
    (op : FilterOp) (rm : RowMap) :
    c.FilterInto op SqlValue.null rm =
      c.FilterIntoLongSlow c.IsNullable op SqlValue.null rm := by
  have hban : ¬(c.IsId = true ∧ op = FilterOp.kEq) := by
    rintro ⟨h1, -⟩
    rcases hty with h | h | h <;> simp [Column.IsId, h] at h1
  have hsor : ¬(c.IsSorted = true ∧ SqlValue.null.typeTag = c.sqlType) := by
    rintro ⟨-, h2⟩
    rcases hty with h | h | h <;> simp [SqlValue.typeTag, Column.sqlType, h] at h2
  unfold Column.FilterInto
  rw [if_neg hban, if_neg hsor]
  rcases hty with h | h | h <;> simp [Column.FilterIntoSlow, h]

end PerfettoDb
namespace PerfettoDb

/-- C1.  Evaluation of the embedded code at the failing input: on a
nullable `Int64` column holding the single cell `None`, the `kLe` and
`kNe` arms read `GetNonNull` of the null slot (its unspecified result is
modelled as 0), so `FilterInto(Le, -1)` and `FilterInto(Ne, 0)` drop the
null row that the claimed `None < Some(_)` semantics would keep, while
the `kLt` arm (which does use the null-aware `Get`) keeps it. -/
theorem c1_nullable_ne_le_use_getNonNull :
    Column.FilterInto nullCellCol FilterOp.kLe (SqlValue.long (-1)) [0] = [] ∧
    Column.FilterInto nullCellCol FilterOp.kNe (SqlValue.long 0) [0] = [] ∧
    Column.FilterInto nullCellCol FilterOp.kLt (SqlValue.long 0) [0] = [0] := by
  decide

/-- C3, counterexample to the claim as stated: a null cell does survive
a relational comparison other than `IsNull` — on a nullable `Int64`
column with the single cell `None`, `FilterInto(Lt, 5)` keeps the null
row, because the nullable slow path compares `Get(idx) < 5` and the
empty optional is less than every value. -/
theorem c3_null_survives_lt_counterexample :
    Column.FilterInto nullCellCol FilterOp.kLt (SqlValue.long 5) [0] = [0] := by
  decide

/-- When neither fast path applies (numeric column, sorted guard
false), `FilterInto` is the numeric slow path. -/
theorem filterInto_noFast_numeric {c : Column} (hty : c.IsNumeric)
    (op : FilterOp) (value : SqlValue) (rm : RowMap)
    (h : ¬(c.IsSorted = true ∧ value.typeTag = c.sqlType)) :
    c.FilterInto op value rm = c.FilterIntoLongSlow c.IsNullable op value rm := by
  have hban : ¬(c.IsId = true ∧ op = FilterOp.kEq) := by
    rintro ⟨h1, -⟩
    rcases hty with h' | h' | h' <;> simp [Column.IsId, h'] at h1
  unfold Column.FilterInto
  rw [if_neg hban, if_neg h]
  rcases hty with h' | h' | h' <;> simp [Column.FilterIntoSlow, h']

/-- When neither fast path applies (string column, sorted guard false),
`FilterInto` is the string slow path. -/
theorem filterInto_noFast_string {c : Column} (hty : c.type = ColumnType.kString)
    (op : FilterOp) (value : SqlValue) (rm : RowMap)
    (h : ¬(c.IsSorted = true ∧ value.typeTag = c.sqlType)) :
    c.FilterInto op value rm = c.FilterIntoStringSlow op value rm := by
  have hban : ¬(c.IsId = true ∧ op = FilterOp.kEq) := by
    rintro ⟨h1, -⟩
    simp [Column.IsId, hty] at h1
  unfold Column.FilterInto
  rw [if_neg hban, if_neg h]
  simp [Column.FilterIntoSlow, hty]

/-- Equation for the `kNe` arm of the string slow path. -/
theorem stringSlow_kNe (c : Column) (value : SqlValue) (rm : RowMap) :
    c.FilterIntoStringSlow FilterOp.kNe value rm =
      RowMap.filterInto c.rowMap rm (fun idx =>
        viewNe (c.GetStringPoolStringAtIdx idx) value.stringValue) := rfl

/-- With `kNe` every `FilterInto` call lands in the type-specialized
slow path (the id fast path requires `kEq`, the sorted switch lets
`kNe` fall through). -/
theorem filterInto_kNe_slow (c : Column) (value : SqlValue) (rm : RowMap) :
    c.FilterInto FilterOp.kNe value rm = c.FilterIntoSlow FilterOp.kNe value rm := by
  unfold Column.FilterInto
  rw [if_neg (by rintro ⟨-, h⟩; exact absurd h (by decide))]
  by_cases hc : c.IsSorted = true ∧ value.typeTag = c.sqlType
  · rw [if_pos hc]
  · rw [if_neg hc]

/-- On the nullable numeric slow path, `kEq`/`kGt`/`kGe` never keep a
row whose cell is null: the null-aware predicate is false on an empty
optional whatever the value. -/
theorem longSlow_nullable_egge_excludes {c : Column} {op : FilterOp}
    {value : SqlValue} {rm : RowMap} {k : Nat}
    (hop : op = FilterOp.kEq ∨ op = FilterOp.kGt ∨ op = FilterOp.kGe)
    (hk : k ∈ c.FilterIntoLongSlow true op value rm)
    (hnone : svGet c.cells (RowMap.get c.rowMap k) = none) : False := by
  rcases hop with rfl | rfl | rfl
  · rw [longSlow_kEq] at hk
    unfold RowMap.filterInto at hk
    rw [List.mem_filter] at hk
    have hp := hk.2
    simp [hnone, optEqVal] at hp
  · rw [longSlow_kGt] at hk
    unfold RowMap.filterInto at hk
    rw [List.mem_filter] at hk
    have hp := hk.2
    simp [hnone, optGtVal] at hp
  · rw [longSlow_kGe] at hk
    unfold RowMap.filterInto at hk
    rw [List.mem_filter] at hk
    have hp := hk.2
    simp [hnone, optGeVal] at hp

/-- On the string slow path with a String-typed value, `kEq`/`kGt`/`kGe`
never keep a row whose pool view is the null view. -/
theorem stringSlow_egge_excludes {c : Column} {op : FilterOp} {s : String}
    {rm : RowMap} {k : Nat}
    (hop : op = FilterOp.kEq ∨ op = FilterOp.kGt ∨ op = FilterOp.kGe)
    (hk : k ∈ c.FilterIntoStringSlow op (SqlValue.str s) rm)
    (hnone : c.GetStringPoolStringAtIdx (RowMap.get c.rowMap k) = none) : False := by
  rcases hop with rfl | rfl | rfl
  · rw [stringSlow_kEq] at hk
    unfold RowMap.filterInto at hk
    rw [List.mem_filter] at hk
    have hp := hk.2
    simp [hnone, viewEq, SqlValue.stringValue] at hp
  · rw [stringSlow_kGt] at hk
    unfold RowMap.filterInto at hk
    rw [List.mem_filter] at hk
    have hp := hk.2
    simp [hnone, viewGt, viewLt, SqlValue.stringValue] at hp
  · rw [stringSlow_kGe] at hk
    unfold RowMap.filterInto at hk
    rw [List.mem_filter] at hk
    have hp := hk.2
    simp [hnone, viewGe, viewLt, SqlValue.stringValue] at hp

/-- C3 (amended).  A row whose cell is null never survives `FilterInto`
with `op ∈ {Eq, Gt, Ge}`: on a numeric column for every value and on a
string column for every String-typed value, whether the slow path runs
(any flags, any value type) or the `Sorted` binary-search fast path runs
(under the `Sorted` invariant).  A null-cell row always survives
`op = Lt` on the unsorted slow path (a null cell compares less than any
real value), on string columns `op = Ne` also keeps null rows, and
`IsNull` keeps null rows.  (`Ne`/`Le` on a nullable numeric column read
`GetNonNull` of the null slot, whose result is unspecified, so null
survival there is not determined by the source.) -/
theorem c3_null_rows_relational_amended :
    (∀ (c : Column) (op : FilterOp) (value : SqlValue) (rm : RowMap) (k : Nat),
      c.IsNumeric → c.nonNull = false →
      op = FilterOp.kEq ∨ op = FilterOp.kGt ∨ op = FilterOp.kGe →
      (c.sorted = true ∧ value.typeTag = SqlType.kLong →
        (∀ j, j < c.rowMap.length → ∀ i, i ≤ j →
          SqlValue.ltv (c.Get j) (c.Get i) = false) ∧
        ∀ x ∈ rm, x < c.rowMap.length) →
      k ∈ c.FilterInto op value rm →
      svGet c.cells (RowMap.get c.rowMap k) ≠ none) ∧
    (∀ (c : Column) (op : FilterOp) (s : String) (rm : RowMap) (k : Nat),
      c.type = ColumnType.kString →
      op = FilterOp.kEq ∨ op = FilterOp.kGt ∨ op = FilterOp.kGe →
      (c.sorted = true →
        (∀ j, j < c.rowMap.length → ∀ i, i ≤ j →
          SqlValue.ltv (c.Get j) (c.Get i) = false) ∧
        ∀ x ∈ rm, x < c.rowMap.length) →
      k ∈ c.FilterInto op (SqlValue.str s) rm →
      c.GetStringPoolStringAtIdx (RowMap.get c.rowMap k) ≠ none) ∧
    (∀ (c : Column) (v : Int) (rm : RowMap) (k : Nat),
      c.IsNumeric → c.sorted = false → c.nonNull = false →
      k ∈ rm → svGet c.cells (RowMap.get c.rowMap k) = none →
      k ∈ c.FilterInto FilterOp.kLt (SqlValue.long v) rm) ∧
    (∀ (c : Column) (s : String) (rm : RowMap) (k : Nat),
      c.type = ColumnType.kString → c.sorted = false →
      k ∈ rm → c.GetStringPoolStringAtIdx (RowMap.get c.rowMap k) = none →
      k ∈ c.FilterInto FilterOp.kLt (SqlValue.str s) rm) ∧
    (∀ (c : Column) (s : String) (rm : RowMap) (k : Nat),
      c.type = ColumnType.kString →
      k ∈ rm → c.GetStringPoolStringAtIdx (RowMap.get c.rowMap k) = none →
      k ∈ c.FilterInto FilterOp.kNe (SqlValue.str s) rm) ∧
    (∀ (c : Column) (rm : RowMap) (k : Nat),
      c.IsNumeric → c.nonNull = false →
      k ∈ rm → svGet c.cells (RowMap.get c.rowMap k) = none →
      k ∈ c.FilterInto FilterOp.kIsNull SqlValue.null rm) := by
  refine ⟨?_, ?_, ?_, ?_, ?_, ?_⟩
  · intro c op value rm k hty hnn hop hinv hk
    intro hnone
    have hnul : c.IsNullable = true := by simp [Column.IsNullable, hnn]
    by_cases hfast : c.IsSorted = true ∧ value.typeTag = c.sqlType
    · have hsor : c.sorted = true := hfast.1
      have hsql : c.sqlType = SqlType.kLong := by
        rcases hty with h | h | h <;> simp [Column.sqlType, h]
      have htag : value.typeTag = SqlType.kLong := by rw [hfast.2, hsql]
      cases value with
      | null => simp [SqlValue.typeTag] at htag
      | str t => simp [SqlValue.typeTag] at htag
      | long v =>
        obtain ⟨hmono, hvalid⟩ := hinv ⟨hsor, htag⟩
        have hmono' : ∀ i j, i ≤ j → j < c.rowMap.length →
            SqlValue.ltv (c.Get j) (c.Get i) = false :=
          fun i j hij hj => hmono j hj i hij
        have hop5 : op = FilterOp.kEq ∨ op = FilterOp.kLt ∨ op = FilterOp.kLe ∨
            op = FilterOp.kGe ∨ op = FilterOp.kGt := by
          rcases hop with rfl | rfl | rfl
          · exact Or.inl rfl
          · exact Or.inr (Or.inr (Or.inr (Or.inr rfl)))
          · exact Or.inr (Or.inr (Or.inr (Or.inl rfl)))
        have hnn5 : c.nonNull = true ∨ op = FilterOp.kLe →
            ∀ j, j < c.rowMap.length →
              (svGet c.cells (RowMap.get c.rowMap j)).isSome = true := by
          rintro (h | h)
          · rw [hnn] at h
            exact absurd h (by decide)
          · rcases hop with rfl | rfl | rfl <;> exact absurd h (by decide)
        rw [fastSlow_numeric hty hsor hop5 hvalid hmono' hnn5] at hk
        have hs : c.FilterIntoSlow op (SqlValue.long v) rm =
            c.FilterIntoLongSlow true op (SqlValue.long v) rm := by
          rcases hty with h | h | h <;>
            simp [Column.FilterIntoSlow, h, Column.IsNullable, hnn]
        rw [hs] at hk
        exact longSlow_nullable_egge_excludes hop hk hnone
    · rw [filterInto_noFast_numeric hty op value rm hfast, hnul] at hk
      exact longSlow_nullable_egge_excludes hop hk hnone
  · intro c op s rm k hty hop hinv hk
    intro hnone
    by_cases hfast : c.IsSorted = true ∧ (SqlValue.str s).typeTag = c.sqlType
    · have hsor : c.sorted = true := hfast.1
      obtain ⟨hmono, hvalid⟩ := hinv hsor
      have hmono' : ∀ i j, i ≤ j → j < c.rowMap.length →
          SqlValue.ltv (c.Get j) (c.Get i) = false :=
        fun i j hij hj => hmono j hj i hij
      have hop5 : op = FilterOp.kEq ∨ op = FilterOp.kLt ∨ op = FilterOp.kLe ∨
          op = FilterOp.kGe ∨ op = FilterOp.kGt := by
        rcases hop with rfl | rfl | rfl
        · exact Or.inl rfl
        · exact Or.inr (Or.inr (Or.inr (Or.inr rfl)))
        · exact Or.inr (Or.inr (Or.inr (Or.inl rfl)))
      rw [fastSlow_string hty hsor hop5 hvalid hmono'] at hk
      have hs : c.FilterIntoSlow op (SqlValue.str s) rm =
          c.FilterIntoStringSlow op (SqlValue.str s) rm := by
        simp [Column.FilterIntoSlow, hty]
      rw [hs] at hk
      exact stringSlow_egge_excludes hop hk hnone
    · rw [filterInto_noFast_string hty op (SqlValue.str s) rm hfast] at hk
      exact stringSlow_egge_excludes hop hk hnone
  · intro c v rm k hty hns hnn hmem hnone
    rw [filterInto_unsorted_numeric hty hns, longSlow_kLt]
    unfold RowMap.filterInto
    rw [List.mem_filter]
    refine ⟨hmem, ?_⟩
    simp [Column.IsNullable, hnn, hnone, optLtVal]
  · intro c s rm k hty hns hmem hnone
    rw [filterInto_unsorted_string hty hns, stringSlow_kLt]
    unfold RowMap.filterInto
    rw [List.mem_filter]
    refine ⟨hmem, ?_⟩
    simp [hnone, viewLt, SqlValue.stringValue]
  · intro c s rm k hty hmem hnone
    rw [filterInto_kNe_slow]
    have hs : c.FilterIntoSlow FilterOp.kNe (SqlValue.str s) rm =
        c.FilterIntoStringSlow FilterOp.kNe (SqlValue.str s) rm := by
      simp [Column.FilterIntoSlow, hty]
    rw [hs, stringSlow_kNe]
    unfold RowMap.filterInto
    rw [List.mem_filter]
    refine ⟨hmem, ?_⟩
    simp [hnone, viewNe, viewEq, SqlValue.stringValue]
  · intro c rm k hty hnn hmem hnone
    rw [filterInto_nullvalue_numeric hty]
    unfold Column.FilterIntoLongSlow
    rw [if_pos rfl, if_pos (by simp [Column.IsNullable, hnn])]
    unfold RowMap.filterInto
    rw [List.mem_filter]
    refine ⟨hmem, ?_⟩
    simp [hnone]

/-- C3 witness: the amended claim applied at a concrete input — on the
nullable column `[None]`, the null row 0 survives `Lt 7`. -/
theorem c3_null_rows_relational_amended_witness :
    0 ∈ Column.FilterInto nullCellCol FilterOp.kLt (SqlValue.long 7) [0] :=
  c3_null_rows_relational_amended.2.2.1 nullCellCol 7 [0] 0
    (Or.inr (Or.inr rfl)) rfl rfl (by decide) rfl

/-- C4.  For a numeric column, `FilterInto(IsNull)` keeps exactly the
rows whose `SparseVector` slot is none, and yields the empty RowMap when
the `NonNull` flag is set; `FilterInto(IsNotNull)` keeps exactly the rows
whose slot holds a value, and leaves the RowMap unchanged when the
`NonNull` flag is set. -/
theorem c4_isNull_isNotNull (c : Column) (rm : RowMap) (hty : c.IsNumeric) :
    (c.nonNull = false → ∀ k,
      (k ∈ c.FilterInto FilterOp.kIsNull SqlValue.null rm ↔
        k ∈ rm ∧ svGet c.cells (RowMap.get c.rowMap k) = none) ∧
      (k ∈ c.FilterInto FilterOp.kIsNotNull SqlValue.null rm ↔
        k ∈ rm ∧ (svGet c.cells (RowMap.get c.rowMap k)).isSome = true)) ∧
    (c.nonNull = true →
      c.FilterInto FilterOp.kIsNull SqlValue.null rm = [] ∧
      c.FilterInto FilterOp.kIsNotNull SqlValue.null rm = rm) := by
  constructor
  · intro hnn k
    constructor
    · rw [filterInto_nullvalue_numeric hty]
      unfold Column.FilterIntoLongSlow
      rw [if_pos rfl, if_pos (by simp [Column.IsNullable, hnn])]
      unfold RowMap.filterInto
      rw [List.mem_filter]
      constructor
      · rintro ⟨h1, h2⟩
        refine ⟨h1, ?_⟩
        simp only [Bool.not_eq_true'] at h2
        cases hsv : svGet c.cells (RowMap.get c.rowMap k)
        · rfl
        · rw [hsv] at h2
          simp at h2
      · rintro ⟨h1, h2⟩
        exact ⟨h1, by simp [h2]⟩
    · rw [filterInto_nullvalue_numeric hty]
      unfold Column.FilterIntoLongSlow
      rw [if_neg (by decide : ¬(FilterOp.kIsNotNull = FilterOp.kIsNull)),
        if_pos rfl, if_pos (by simp [Column.IsNullable, hnn])]
      unfold RowMap.filterInto
      rw [List.mem_filter]
  · intro hnn
    constructor
    · rw [filterInto_nullvalue_numeric hty]
      unfold Column.FilterIntoLongSlow
      rw [if_pos rfl, if_neg (by simp [Column.IsNullable, hnn])]
      exact intersect_nil rm
    · rw [filterInto_nullvalue_numeric hty]
      unfold Column.FilterIntoLongSlow
      rw [if_neg (by decide : ¬(FilterOp.kIsNotNull = FilterOp.kIsNull)),
        if_pos rfl, if_neg (by simp [Column.IsNullable, hnn])]

/-- C4 witness: on the non-null `S5` column, `IsNull` empties the RowMap
and `IsNotNull` leaves it unchanged; on the nullable `S1`-`S4` column,
row 3 (the null cell) survives `IsNull`. -/
theorem c4_isNull_isNotNull_witness :
    (Column.FilterInto s5Col FilterOp.kIsNull SqlValue.null [0, 1, 2] = [] ∧
     Column.FilterInto s5Col FilterOp.kIsNotNull SqlValue.null [0, 1, 2] = [0, 1, 2]) ∧
    (3 ∈ Column.FilterInto s4Col FilterOp.kIsNull SqlValue.null [0, 1, 2, 3, 4]) :=
  ⟨(c4_isNull_isNotNull s5Col [0, 1, 2] (Or.inr (Or.inr rfl))).2 rfl,
    ((c4_isNull_isNotNull s4Col [0, 1, 2, 3, 4] (Or.inr (Or.inr rfl))).1 rfl 3).1.mpr
      (by decide)⟩

end PerfettoDb
namespace PerfettoDb

/-- C5.  On an id column (duplicate-free RowMap, valid `rm` entries) the
`Eq` fast path — `IndexOf(value)` followed by intersection with
`SingleRow`/`Empty` — keeps exactly the rows of `rm` whose RowMap entry
equals the value cast to `uint32_t`. -/
theorem c5_id_eq_fast_path (c : Column) (v : Int) (rm : RowMap)
    (hty : c.type = ColumnType.kId) (hnd : c.rowMap.Nodup)
    (hvalid : ∀ k ∈ rm, k < c.rowMap.length) :
    c.FilterInto FilterOp.kEq (SqlValue.long v) rm =
      rm.filter (fun k => RowMap.get c.rowMap k == u32cast v) := by
  unfold Column.FilterInto
  rw [if_pos ⟨(by simp [Column.IsId, hty]), rfl⟩]
  have hidx : c.IndexOf (SqlValue.long v) =
      RowMap.indexOfRow c.rowMap (u32cast v) := by
    simp [Column.IndexOf, hty, SqlValue.typeTag, SqlValue.longValue]
  rw [hidx]
  cases hfind : RowMap.indexOfRow c.rowMap (u32cast v)
  case none =>
    show RowMap.intersect rm [] = _
    rw [intersect_nil]
    symm
    apply List.filter_eq_nil_iff.mpr
    intro x hx
    unfold RowMap.indexOfRow at hfind
    rw [List.range_eq_range'] at hfind
    have hxr : x ∈ List.range' 0 c.rowMap.length :=
      List.mem_range'_1.mpr ⟨Nat.zero_le _, by simpa using hvalid x hx⟩
    exact List.find?_eq_none.mp hfind x hxr
  case some idx =>
    show RowMap.intersect rm (RowMap.singleRow idx) = _
    unfold RowMap.indexOfRow at hfind
    rw [List.range_eq_range'] at hfind
    obtain ⟨-, hlt, hpk, -⟩ := find?_range'_eq_some.mp hfind
    unfold RowMap.intersect RowMap.singleRow
    apply List.filter_congr
    intro y hy
    have hyn := hvalid y hy
    by_cases hyi : y = idx
    · subst hyi
      have h2 : (RowMap.get c.rowMap y == u32cast v) = true := hpk
      simp [h2]
    · have h2 : (RowMap.get c.rowMap y == u32cast v) = false := by
        apply Bool.eq_false_iff.mpr
        intro hc
        apply hyi
        have hidx' : idx < c.rowMap.length := by simpa using hlt
        have he1 : List.get c.rowMap ⟨y, hyn⟩ = List.get c.rowMap ⟨idx, hidx'⟩ := by
          rw [← rowGet_eq_get hyn, ← rowGet_eq_get hidx']
          rw [beq_iff_eq] at hc hpk
          rw [hc, hpk]
        exact congrArg Fin.val ((List.Nodup.get_inj_iff hnd).mp he1)
      simp [h2, hyi]

/-- C5 witness: the `S6` scenario — on the id column over `[0, 5)`,
`FilterInto(Eq, 3)` keeps exactly row 3 and `FilterInto(Eq, 99)` keeps
nothing. -/
theorem c5_id_eq_fast_path_witness :
    Column.FilterInto idCol5 FilterOp.kEq (SqlValue.long 3) [0, 1, 2, 3, 4] = [3] ∧
    Column.FilterInto idCol5 FilterOp.kEq (SqlValue.long 99) [0, 1, 2, 3, 4] = [] := by
  constructor
  · rw [c5_id_eq_fast_path idCol5 3 [0, 1, 2, 3, 4] rfl (by decide) (by decide)]
    decide
  · rw [c5_id_eq_fast_path idCol5 99 [0, 1, 2, 3, 4] rfl (by decide) (by decide)]
    decide

/-- The `SqlValue` equality never holds against the null value. -/
theorem eqv_null_right (x : SqlValue) : SqlValue.eqv x SqlValue.null = false := by
  cases x <;> rfl

/-- C7.  `IndexOf`: the null value is found nowhere (null equals
nothing); on non-id columns `IndexOf` returns exactly the first row (in
`row_map` coordinates) whose `Get` equals the value under `SqlValue`
equality; on an id column it returns `row_map().IndexOf` of the value
cast to `uint32_t` when the value is a Long and none otherwise, where
`RowMap::IndexOf` returns the first position carrying the storage
index. -/
theorem c7_indexOf_characterization :
    (∀ c : Column, c.IndexOf SqlValue.null = none) ∧
    (∀ (c : Column) (value : SqlValue) (k : Nat), c.type ≠ ColumnType.kId →
      (c.IndexOf value = some k ↔
        k < c.rowMap.length ∧ SqlValue.eqv (c.Get k) value = true ∧
        ∀ j, j < k → SqlValue.eqv (c.Get j) value = false)) ∧
    (∀ (c : Column) (v : Int), c.type = ColumnType.kId →
      c.IndexOf (SqlValue.long v) = RowMap.indexOfRow c.rowMap (u32cast v)) ∧
    (∀ (c : Column) (value : SqlValue), c.type = ColumnType.kId →
      value.typeTag ≠ SqlType.kLong → c.IndexOf value = none) ∧
    (∀ (rowMap : RowMap) (idx k : Nat),
      RowMap.indexOfRow rowMap idx = some k ↔
        k < rowMap.length ∧ RowMap.get rowMap k = idx ∧
        ∀ j, j < k → RowMap.get rowMap j ≠ idx) := by
  refine ⟨?_, ?_, ?_, ?_, ?_⟩
  · intro c
    cases hty : c.type
    case kId => simp [Column.IndexOf, hty, SqlValue.typeTag]
    all_goals
      simp only [Column.IndexOf, hty]
      apply List.find?_eq_none.mpr
      intro x hx
      simp [eqv_null_right]
  · intro c value k hty
    cases hty' : c.type
    case kId => exact absurd hty' hty
    all_goals
      simp only [Column.IndexOf, hty']
      rw [List.range_eq_range', find?_range'_eq_some]
      constructor
      · rintro ⟨-, h2, h3, h4⟩
        exact ⟨by omega, h3, fun j hj => h4 j (Nat.zero_le _) hj⟩
      · rintro ⟨h1, h2, h3⟩
        exact ⟨Nat.zero_le _, by omega, h2, fun j _ hj => h3 j hj⟩
  · intro c v hty
    simp [Column.IndexOf, hty, SqlValue.typeTag, SqlValue.longValue]
  · intro c value hty htag
    cases value with
    | null => simp [Column.IndexOf, hty, SqlValue.typeTag]
    | str s => simp [Column.IndexOf, hty, SqlValue.typeTag]
    | long v => exact absurd rfl htag
  · intro rowMap idx k
    unfold RowMap.indexOfRow
    rw [List.range_eq_range', find?_range'_eq_some]
    constructor
    · rintro ⟨-, h2, h3, h4⟩
      refine ⟨by omega, by rwa [beq_iff_eq] at h3, ?_⟩
      intro j hj
      have := h4 j (Nat.zero_le _) hj
      intro hc
      rw [hc] at this
      simp at this
    · rintro ⟨h1, h2, h3⟩
      refine ⟨Nat.zero_le _, by omega, by rwa [beq_iff_eq], ?_⟩
      intro j _ hj
      have := h3 j hj
      apply Bool.eq_false_iff.mpr
      intro hc
      rw [beq_iff_eq] at hc
      exact this hc

/-- C7 witness: the characterization applied concretely — on the id
column over `[0, 5)`, `IndexOf(Long 3)` is `RowMap::IndexOf(3)`, which
is row 3. -/
theorem c7_indexOf_characterization_witness :
    Column.IndexOf idCol5 (SqlValue.long 3) = some 3 := by
  rw [c7_indexOf_characterization.2.2.1 idCol5 3 rfl]
  decide

/-- With `kLike` every `FilterInto` call lands in the type-specialized
slow path (the id fast path requires `kEq`, the sorted fast path lets
`kLike` fall through). -/
theorem filterInto_kLike_slow (c : Column) (value : SqlValue) (rm : RowMap) :
    c.FilterInto FilterOp.kLike value rm = c.FilterIntoSlow FilterOp.kLike value rm := by
  unfold Column.FilterInto
  rw [if_neg (by rintro ⟨-, h⟩; exact absurd h (by decide))]
  by_cases hc : c.IsSorted = true ∧ value.typeTag = c.sqlType
  · rw [if_pos hc]
  · rw [if_neg hc]

/-- C8.  `FilterInto(Like, ·)` empties the RowMap on numeric and id
columns whatever the value, and on a string column (no external pattern
engine is configured; the source only logs) leaves the RowMap entirely
unchanged. -/
theorem c8_like_behavior :
    (∀ (c : Column) (value : SqlValue) (rm : RowMap), c.IsNumeric →
      c.FilterInto FilterOp.kLike value rm = []) ∧
    (∀ (c : Column) (value : SqlValue) (rm : RowMap), c.type = ColumnType.kId →
      c.FilterInto FilterOp.kLike value rm = []) ∧
    (∀ (c : Column) (value : SqlValue) (rm : RowMap), c.type = ColumnType.kString →
      c.FilterInto FilterOp.kLike value rm = rm) := by
  refine ⟨?_, ?_, ?_⟩
  · intro c value rm hty
    rw [filterInto_kLike_slow]
    have h : c.FilterIntoSlow FilterOp.kLike value rm =
        c.FilterIntoLongSlow c.IsNullable FilterOp.kLike value rm := by
      rcases hty with h | h | h <;> simp [Column.FilterIntoSlow, h]
    rw [h]
    unfold Column.FilterIntoLongSlow
    rw [if_neg (by decide : ¬(FilterOp.kLike = FilterOp.kIsNull)),
      if_neg (by decide : ¬(FilterOp.kLike = FilterOp.kIsNotNull))]
    exact intersect_nil rm
  · intro c value rm hty
    rw [filterInto_kLike_slow]
    have h : c.FilterIntoSlow FilterOp.kLike value rm =
        c.FilterIntoIdSlow FilterOp.kLike value rm := by
      simp [Column.FilterIntoSlow, hty]
    rw [h]
    unfold Column.FilterIntoIdSlow
    rw [if_neg (by decide : ¬(FilterOp.kLike = FilterOp.kIsNull)),
      if_neg (by decide : ¬(FilterOp.kLike = FilterOp.kIsNotNull))]
    exact intersect_nil rm
  · intro c value rm hty
    rw [filterInto_kLike_slow]
    have h : c.FilterIntoSlow FilterOp.kLike value rm =
        c.FilterIntoStringSlow FilterOp.kLike value rm := by
      simp [Column.FilterIntoSlow, hty]
    rw [h]
    unfold Column.FilterIntoStringSlow
    rw [if_neg (by decide : ¬(FilterOp.kLike = FilterOp.kIsNull)),
      if_neg (by decide : ¬(FilterOp.kLike = FilterOp.kIsNotNull))]

/-- C8 witness: the `Like` behavior applied concretely to a numeric, an
id, and a string column. -/
theorem c8_like_behavior_witness :
    Column.FilterInto s4Col FilterOp.kLike (SqlValue.str "x") [0, 1, 2] = [] ∧
    Column.FilterInto idCol3 FilterOp.kLike (SqlValue.long 0) [0, 1] = [] ∧
    Column.FilterInto
      { type := ColumnType.kString, sorted := false, nonNull := false,
        cells := [], strIds := [0], pool := [some "a"], rowMap := [0] }
      FilterOp.kLike (SqlValue.str "a") [0] = [0] :=
  ⟨c8_like_behavior.1 s4Col (SqlValue.str "x") [0, 1, 2] (Or.inr (Or.inr rfl)),
   c8_like_behavior.2.1 idCol3 (SqlValue.long 0) [0, 1] rfl,
   c8_like_behavior.2.2 _ (SqlValue.str "a") [0] rfl⟩

end PerfettoDb
namespace PerfettoDb

/-- Each numeric slow-path call is a filter of `rm` by a predicate that
does not depend on `rm`. -/
theorem longSlow_as_filter (c : Column) (b : Bool) (op : FilterOp) (value : SqlValue) :
    ∃ p : Nat → Bool, ∀ rm : RowMap,
      c.FilterIntoLongSlow b op value rm = rm.filter p := by
  cases op
  case kEq => exact ⟨_, fun rm => rfl⟩
  case kNe => exact ⟨_, fun rm => rfl⟩
  case kGt => exact ⟨_, fun rm => rfl⟩
  case kLt => exact ⟨_, fun rm => rfl⟩
  case kGe => exact ⟨_, fun rm => rfl⟩
  case kLe => exact ⟨_, fun rm => rfl⟩
  case kLike => exact ⟨_, fun rm => rfl⟩
  case kIsNull =>
    cases b
    · exact ⟨_, fun rm => rfl⟩
    · exact ⟨_, fun rm => rfl⟩
  case kIsNotNull =>
    cases b
    · exact ⟨fun _ => true, fun rm => (List.filter_true rm).symm⟩
    · exact ⟨_, fun rm => rfl⟩

/-- Each string slow-path call is a filter of `rm` by a predicate that
does not depend on `rm`. -/
theorem stringSlow_as_filter (c : Column) (op : FilterOp) (value : SqlValue) :
    ∃ p : Nat → Bool, ∀ rm : RowMap,
      c.FilterIntoStringSlow op value rm = rm.filter p := by
  cases op
  case kLike => exact ⟨fun _ => true, fun rm => (List.filter_true rm).symm⟩
  all_goals exact ⟨_, fun rm => rfl⟩

/-- Each id slow-path call is a filter of `rm` by a predicate that does
not depend on `rm`. -/
theorem idSlow_as_filter (c : Column) (op : FilterOp) (value : SqlValue) :
    ∃ p : Nat → Bool, ∀ rm : RowMap,
      c.FilterIntoIdSlow op value rm = rm.filter p := by
  cases op
  all_goals exact ⟨_, fun rm => rfl⟩

/-- Each type-specialized slow-path call is a filter of `rm`. -/
theorem slow_as_filter (c : Column) (op : FilterOp) (value : SqlValue) :
    ∃ p : Nat → Bool, ∀ rm : RowMap,
      c.FilterIntoSlow op value rm = rm.filter p := by
  cases hty : c.type
  case kInt32 =>
    obtain ⟨p, hp⟩ := longSlow_as_filter c c.IsNullable op value
    exact ⟨p, fun rm => by simp only [Column.FilterIntoSlow, hty]; exact hp rm⟩
  case kUint32 =>
    obtain ⟨p, hp⟩ := longSlow_as_filter c c.IsNullable op value
    exact ⟨p, fun rm => by simp only [Column.FilterIntoSlow, hty]; exact hp rm⟩
  case kInt64 =>
    obtain ⟨p, hp⟩ := longSlow_as_filter c c.IsNullable op value
    exact ⟨p, fun rm => by simp only [Column.FilterIntoSlow, hty]; exact hp rm⟩
  case kString =>
    obtain ⟨p, hp⟩ := stringSlow_as_filter c op value
    exact ⟨p, fun rm => by simp only [Column.FilterIntoSlow, hty]; exact hp rm⟩
  case kId =>
    obtain ⟨p, hp⟩ := idSlow_as_filter c op value
    exact ⟨p, fun rm => by simp only [Column.FilterIntoSlow, hty]; exact hp rm⟩

/-- Every `FilterInto` call — through any fast or slow path — filters
`rm` by a predicate depending only on the column, operator and value. -/
theorem filterInto_as_filter (c : Column) (op : FilterOp) (value : SqlValue) :
    ∃ p : Nat → Bool, ∀ rm : RowMap,
      c.FilterInto op value rm = rm.filter p := by
  by_cases h1 : c.IsId = true ∧ op = FilterOp.kEq
  · cases hfind : c.IndexOf value with
    | none =>
      exact ⟨fun x => List.contains [] x, fun rm => by
        unfold Column.FilterInto
        rw [if_pos h1, hfind]
        rfl⟩
    | some idx =>
      exact ⟨fun x => List.contains [idx] x, fun rm => by
        unfold Column.FilterInto
        rw [if_pos h1, hfind]
        rfl⟩
  · by_cases h2 : c.IsSorted = true ∧ value.typeTag = c.sqlType
    · cases op with
      | kEq =>
        exact ⟨_, fun rm => by
          unfold Column.FilterInto
          rw [if_neg h1, if_pos h2]
          rfl⟩
      | kLe =>
        exact ⟨_, fun rm => by
          unfold Column.FilterInto
          rw [if_neg h1, if_pos h2]
          rfl⟩
      | kLt =>
        exact ⟨_, fun rm => by
          unfold Column.FilterInto
          rw [if_neg h1, if_pos h2]
          rfl⟩
      | kGe =>
        exact ⟨_, fun rm => by
          unfold Column.FilterInto
          rw [if_neg h1, if_pos h2]
          rfl⟩
      | kGt =>
        exact ⟨_, fun rm => by
          unfold Column.FilterInto
          rw [if_neg h1, if_pos h2]
          rfl⟩
      | kNe =>
        obtain ⟨p, hp⟩ := slow_as_filter c FilterOp.kNe value
        exact ⟨p, fun rm => by
          unfold Column.FilterInto; rw [if_neg h1, if_pos h2]; exact hp rm⟩
      | kIsNull =>
        obtain ⟨p, hp⟩ := slow_as_filter c FilterOp.kIsNull value
        exact ⟨p, fun rm => by
          unfold Column.FilterInto; rw [if_neg h1, if_pos h2]; exact hp rm⟩
      | kIsNotNull =>
        obtain ⟨p, hp⟩ := slow_as_filter c FilterOp.kIsNotNull value
        exact ⟨p, fun rm => by
          unfold Column.FilterInto; rw [if_neg h1, if_pos h2]; exact hp rm⟩
      | kLike =>
        obtain ⟨p, hp⟩ := slow_as_filter c FilterOp.kLike value
        exact ⟨p, fun rm => by
          unfold Column.FilterInto; rw [if_neg h1, if_pos h2]; exact hp rm⟩
    · obtain ⟨p, hp⟩ := slow_as_filter c op value
      exact ⟨p, fun rm => by
        unfold Column.FilterInto; rw [if_neg h1, if_neg h2]; exact hp rm⟩

/-- C9.  `FilterInto` is idempotent: narrowing a RowMap twice with the
same operator and value gives the same RowMap as narrowing it once (every
path filters by a predicate independent of the incoming RowMap). -/
theorem c9_filterInto_idempotent (c : Column) (op : FilterOp) (value : SqlValue)
    (rm : RowMap) :
    c.FilterInto op value (c.FilterInto op value rm) = c.FilterInto op value rm := by
  obtain ⟨p, hp⟩ := filterInto_as_filter c op value
  rw [hp, hp, List.filter_filter]
  apply List.filter_congr
  intro a ha
  exact Bool.and_self (p a)

/-- The u32 cast only depends on the value modulo `2 ^ 32`. -/
theorem u32cast_emod (v : Int) : u32cast (v % 4294967296) = u32cast v := by
  unfold u32cast
  norm_num

/-- C10, counterexample to the claim as stated: on a real id column
(`Sorted` flag set, as `IdColumn` installs), `FilterInto(Lt, Long(-1))`
takes the binary-search fast path, which compares the untruncated value
(`SqlValue` comparison) and keeps nothing, while the id slow path cited
by the claim truncates `-1` to `2^32 - 1` and keeps every row. -/
theorem c10_sorted_id_lt_no_truncation :
    Column.FilterInto idCol3 FilterOp.kLt (SqlValue.long (-1)) [0, 1, 2] = [] ∧
    Column.FilterIntoIdSlow idCol3 FilterOp.kLt (SqlValue.long (-1)) [0, 1, 2] =
      [0, 1, 2] := by
  decide

/-- C10 (amended).  `IndexOf` on an id column and every arm of
`FilterIntoIdSlow` first truncate the Long value modulo `2 ^ 32`, and
`FilterInto(Eq)` on an id column does so through `IndexOf`; hence
`FilterInto(Eq, Long(k + 2^32))` keeps exactly the row with storage
index `k` and a negative Long `Eq`-matches the storage index equal to
its value modulo `2 ^ 32`.  (For `Lt/Le/Gt/Ge` on a `Sorted` id column
`FilterInto` takes the binary-search path, which does not truncate.) -/
theorem c10_id_u32_truncation_amended :
    (∀ (c : Column) (v : Int), c.type = ColumnType.kId →
      c.IndexOf (SqlValue.long v) = c.IndexOf (SqlValue.long (v % 2 ^ 32))) ∧
    (∀ (c : Column) (op : FilterOp) (v : Int) (rm : RowMap),
      c.FilterIntoIdSlow op (SqlValue.long v) rm =
        c.FilterIntoIdSlow op (SqlValue.long (v % 2 ^ 32)) rm) ∧
    (∀ (c : Column) (v : Int) (rm : RowMap), c.type = ColumnType.kId →
      c.FilterInto FilterOp.kEq (SqlValue.long v) rm =
        c.FilterInto FilterOp.kEq (SqlValue.long (v % 2 ^ 32)) rm) ∧
    Column.FilterInto idCol5 FilterOp.kEq (SqlValue.long (3 + 2 ^ 32))
      [0, 1, 2, 3, 4] = [3] ∧
    Column.FilterInto idColWrap FilterOp.kEq (SqlValue.long (-1)) [0, 1, 2] = [2] := by
  have hIdx : ∀ (c : Column) (v : Int), c.type = ColumnType.kId →
      c.IndexOf (SqlValue.long v) = c.IndexOf (SqlValue.long (v % 2 ^ 32)) := by
    intro c v hty
    simp [Column.IndexOf, hty, SqlValue.typeTag, SqlValue.longValue, u32cast_emod]
  refine ⟨hIdx, ?_, ?_, by decide, by decide⟩
  · intro c op v rm
    cases op <;>
      simp [Column.FilterIntoIdSlow, SqlValue.longValue, u32cast_emod]
  · intro c v rm hty
    unfold Column.FilterInto
    rw [if_pos ⟨(by simp [Column.IsId, hty]), rfl⟩,
      if_pos ⟨(by simp [Column.IsId, hty]), rfl⟩]
    rw [hIdx c v hty]

/-- C10 witness: the slow-path truncation equation applied concretely at
the negative value `-1`. -/
theorem c10_id_u32_truncation_amended_witness :
    Column.FilterIntoIdSlow idCol3 FilterOp.kGe (SqlValue.long (-1)) [0, 1, 2] =
      Column.FilterIntoIdSlow idCol3 FilterOp.kGe (SqlValue.long ((-1) % 2 ^ 32))
        [0, 1, 2] :=
  c10_id_u32_truncation_amended.2.1 idCol3 FilterOp.kGe (-1) [0, 1, 2]

end PerfettoDb
namespace PerfettoDb

/-- Transitivity of the complement of the optional strict order. -/
theorem optOptLt_le_trans {x y z : Option Int}
    (h1 : optOptLt y x = false) (h2 : optOptLt z y = false) :
    optOptLt z x = false := by
  cases x <;> cases y <;> cases z <;> simp_all [optOptLt]
  omega

/-- Totality of the complement of the optional strict order. -/
theorem optOptLt_total (x y : Option Int) :
    optOptLt x y = false ∨ optOptLt y x = false := by
  cases x <;> cases y <;> simp_all [optOptLt]
  omega

/-- Any `RowMap::StableSort` result is a permutation of the input. -/
theorem stableSort_perm (rowMap : RowMap) (out : List Nat) (cmp : Nat → Nat → Bool) :
    (RowMap.stableSort rowMap out cmp).Perm out := by
  unfold RowMap.stableSort
  exact List.perm_insertionSort _ out

/-- Stability of `RowMap::StableSort`: a class of entries that the
comparator never strictly orders keeps exactly its input subsequence. -/
theorem stableSort_stable (rowMap : RowMap) (out : List Nat) (cmp : Nat → Nat → Bool)
    (p : Nat → Bool)
    (hp : ∀ a b, a ∈ out → b ∈ out → p a = true → p b = true →
      cmp (RowMap.get rowMap a) (RowMap.get rowMap b) = false) :
    (RowMap.stableSort rowMap out cmp).filter p = out.filter p := by
  unfold RowMap.stableSort
  have h1 : (out.filter p).Sublist out := List.filter_sublist out
  have h2 : List.Pairwise
      (fun a b => (!(cmp (RowMap.get rowMap b) (RowMap.get rowMap a))) = true)
      (out.filter p) := by
    apply List.pairwise_of_forall_mem_list
    intro a ha b hb
    rw [List.mem_filter] at ha hb
    rw [hp b a hb.1 ha.1 hb.2 ha.2]
    rfl
  have h3 := List.sublist_insertionSort h2 h1
  have h5 : (out.filter p).filter p = out.filter p := by
    rw [List.filter_filter]
    apply List.filter_congr
    intro a ha
    exact Bool.and_self (p a)
  have h4 : (out.filter p).Sublist
      ((List.insertionSort
        (fun a b => (!(cmp (RowMap.get rowMap b) (RowMap.get rowMap a))) = true)
        out).filter p) := by
    rw [← h5]
    exact List.Sublist.filter p h3
  have hlen : (out.filter p).length =
      ((List.insertionSort
        (fun a b => (!(cmp (RowMap.get rowMap b) (RowMap.get rowMap a))) = true)
        out).filter p).length := by
    rw [← List.countP_eq_length_filter, ← List.countP_eq_length_filter]
    exact (List.Perm.countP_eq p (List.perm_insertionSort _ out)).symm
  exact (h4.eq_of_length hlen).symm

/-- Sortedness of `RowMap::StableSort` under a transitive, total strict
comparator: consecutive results are never strictly decreasing. -/
theorem stableSort_sorted (rowMap : RowMap) (out : List Nat) (cmp : Nat → Nat → Bool)
    (htr : ∀ x y z, cmp y x = false → cmp z y = false → cmp z x = false)
    (hto : ∀ x y, cmp x y = false ∨ cmp y x = false) :
    List.Pairwise
      (fun a b => cmp (RowMap.get rowMap b) (RowMap.get rowMap a) = false)
      (RowMap.stableSort rowMap out cmp) := by
  unfold RowMap.stableSort
  haveI : IsTrans Nat
      (fun a b => (!(cmp (RowMap.get rowMap b) (RowMap.get rowMap a))) = true) := by
    constructor
    intro a b c hab hbc
    simp only [Bool.not_eq_true'] at hab hbc ⊢
    exact htr _ _ _ hab hbc
  haveI : IsTotal Nat
      (fun a b => (!(cmp (RowMap.get rowMap b) (RowMap.get rowMap a))) = true) := by
    constructor
    intro a b
    rcases hto (RowMap.get rowMap b) (RowMap.get rowMap a) with h | h
    · left; simp [h]
    · right; simp [h]
  have hs := List.sorted_insertionSort
      (fun a b => (!(cmp (RowMap.get rowMap b) (RowMap.get rowMap a))) = true) out
  refine hs.imp ?_
  intro a b hab
  simpa [Bool.not_eq_true'] using hab

/-- Transitivity of the complement of the view strict order. -/
theorem viewLt_le_trans {x y z : Option String}
    (h1 : viewLt y x = false) (h2 : viewLt z y = false) : viewLt z x = false := by
  cases x <;> cases y <;> cases z <;>
    simp_all only [viewLt, decide_eq_false_iff_not, Bool.true_eq_false]
  exact not_lt.mpr (le_trans (not_lt.mp h1) (not_lt.mp h2))

/-- Totality of the complement of the view strict order. -/
theorem viewLt_total (x y : Option String) :
    viewLt x y = false ∨ viewLt y x = false := by
  cases x with
  | none =>
    cases y with
    | none => exact Or.inl rfl
    | some b => exact Or.inr rfl
  | some a =>
    cases y with
    | none => exact Or.inl rfl
    | some b =>
      simp only [viewLt, decide_eq_false_iff_not]
      rcases le_or_lt a b with h | h
      · exact Or.inr (not_lt.mpr h)
      · exact Or.inl (not_lt.mpr (le_of_lt h))

/-- Nullable numeric comparator properties, shared by the three numeric
column types. -/
theorem numCmp_nullable_le_trans_total (cells : List (Option Int)) (desc : Bool)
    (cmp : Nat → Nat → Bool)
    (hc : ∀ a b, cmp a b =
      (if desc then optOptLt (svGet cells b) (svGet cells a)
       else optOptLt (svGet cells a) (svGet cells b))) :
    (∀ x y z, cmp y x = false → cmp z y = false → cmp z x = false) ∧
    (∀ x y, cmp x y = false ∨ cmp y x = false) := by
  cases desc
  · simp only [Bool.false_eq_true, if_false] at hc
    constructor
    · intro x y z h1 h2
      rw [hc] at h1 h2 ⊢
      exact optOptLt_le_trans h1 h2
    · intro x y
      rw [hc, hc]
      exact optOptLt_total _ _
  · simp only [if_true] at hc
    constructor
    · intro x y z h1 h2
      rw [hc] at h1 h2 ⊢
      exact optOptLt_le_trans h2 h1
    · intro x y
      rw [hc, hc]
      exact optOptLt_total _ _

/-- Non-null numeric comparator properties, shared by the three numeric
column types. -/
theorem numCmp_nonNull_le_trans_total (cells : List (Option Int)) (desc : Bool)
    (cmp : Nat → Nat → Bool)
    (hc : ∀ a b, cmp a b =
      (if desc then decide (svGetNonNull cells b < svGetNonNull cells a)
       else decide (svGetNonNull cells a < svGetNonNull cells b))) :
    (∀ x y z, cmp y x = false → cmp z y = false → cmp z x = false) ∧
    (∀ x y, cmp x y = false ∨ cmp y x = false) := by
  cases desc
  · simp only [Bool.false_eq_true, if_false] at hc
    constructor
    · intro x y z h1 h2
      rw [hc] at h1 h2 ⊢
      simp only [decide_eq_false_iff_not] at h1 h2 ⊢
      omega
    · intro x y
      rw [hc, hc]
      simp only [decide_eq_false_iff_not]
      omega
  · simp only [if_true] at hc
    constructor
    · intro x y z h1 h2
      rw [hc] at h1 h2 ⊢
      simp only [decide_eq_false_iff_not] at h1 h2 ⊢
      omega
    · intro x y
      rw [hc, hc]
      simp only [decide_eq_false_iff_not]
      omega

/-- Every column comparator the source hands to `RowMap::StableSort` is
a strict weak order: its complement is transitive and total, for every
column type, nullability and sort direction. -/
theorem sortCmp_le_trans_total (c : Column) (desc : Bool) :
    (∀ x y z, c.sortCmp desc y x = false → c.sortCmp desc z y = false →
      c.sortCmp desc z x = false) ∧
    (∀ x y, c.sortCmp desc x y = false ∨ c.sortCmp desc y x = false) := by
  cases hty : c.type
  case kInt32 =>
    by_cases hb : c.IsNullable = true
    · exact numCmp_nullable_le_trans_total c.cells desc (c.sortCmp desc)
        (fun a b => by simp [Column.sortCmp, hty, hb])
    · have hb' : c.IsNullable = false := by revert hb; cases c.IsNullable <;> simp
      exact numCmp_nonNull_le_trans_total c.cells desc (c.sortCmp desc)
        (fun a b => by simp [Column.sortCmp, hty, hb'])
  case kUint32 =>
    by_cases hb : c.IsNullable = true
    · exact numCmp_nullable_le_trans_total c.cells desc (c.sortCmp desc)
        (fun a b => by simp [Column.sortCmp, hty, hb])
    · have hb' : c.IsNullable = false := by revert hb; cases c.IsNullable <;> simp
      exact numCmp_nonNull_le_trans_total c.cells desc (c.sortCmp desc)
        (fun a b => by simp [Column.sortCmp, hty, hb'])
  case kInt64 =>
    by_cases hb : c.IsNullable = true
    · exact numCmp_nullable_le_trans_total c.cells desc (c.sortCmp desc)
        (fun a b => by simp [Column.sortCmp, hty, hb])
    · have hb' : c.IsNullable = false := by revert hb; cases c.IsNullable <;> simp
      exact numCmp_nonNull_le_trans_total c.cells desc (c.sortCmp desc)
        (fun a b => by simp [Column.sortCmp, hty, hb'])
  case kString =>
    cases desc
    · have hc : ∀ a b, c.sortCmp false a b =
          viewLt (c.GetStringPoolStringAtIdx a) (c.GetStringPoolStringAtIdx b) := by
        intro a b
        simp [Column.sortCmp, hty]
      constructor
      · intro x y z h1 h2
        rw [hc] at h1 h2 ⊢
        exact viewLt_le_trans h1 h2
      · intro x y
        rw [hc, hc]
        exact viewLt_total _ _
    · have hc : ∀ a b, c.sortCmp true a b =
          viewLt (c.GetStringPoolStringAtIdx b) (c.GetStringPoolStringAtIdx a) := by
        intro a b
        simp [Column.sortCmp, hty]
      constructor
      · intro x y z h1 h2
        rw [hc] at h1 h2 ⊢
        exact viewLt_le_trans h2 h1
      · intro x y
        rw [hc, hc]
        exact viewLt_total _ _
  case kId =>
    cases desc
    · have hc : ∀ a b, c.sortCmp false a b = decide (a < b) := by
        intro a b
        simp [Column.sortCmp, hty]
      constructor
      · intro x y z h1 h2
        rw [hc] at h1 h2 ⊢
        simp only [decide_eq_false_iff_not] at h1 h2 ⊢
        omega
      · intro x y
        rw [hc, hc]
        simp only [decide_eq_false_iff_not]
        omega
    · have hc : ∀ a b, c.sortCmp true a b = decide (b < a) := by
        intro a b
        simp [Column.sortCmp, hty]
      constructor
      · intro x y z h1 h2
        rw [hc] at h1 h2 ⊢
        simp only [decide_eq_false_iff_not] at h1 h2 ⊢
        omega
      · intro x y
        rw [hc, hc]
        simp only [decide_eq_false_iff_not]
        omega

/-- C6.  `StableSort` returns a permutation of the input index vector;
entries whose keys the comparator never strictly orders (in particular,
equal keys) retain their relative input order; for every column type,
nullability and sort direction the output is ordered by the column's
values (no later entry is strictly below an earlier one under the
column's comparator); on a nullable numeric column an ascending sort is
ordered by the cell values with null cells first; and on the `S4`
column (`[10, 20, 20, None, 30]`) ascending `StableSort` of `[0..4]`
yields `[3, 0, 1, 2, 4]`. -/
theorem c6_stableSort_perm_stable_sorted :
    (∀ (c : Column) (desc : Bool) (out : List Nat),
      (c.StableSort desc out).Perm out) ∧
    (∀ (c : Column) (desc : Bool) (out : List Nat) (p : Nat → Bool),
      (∀ a b, a ∈ out → b ∈ out → p a = true → p b = true →
        c.sortCmp desc (RowMap.get c.rowMap a) (RowMap.get c.rowMap b) = false) →
      (c.StableSort desc out).filter p = out.filter p) ∧
    (∀ (c : Column) (desc : Bool) (out : List Nat),
      List.Pairwise
        (fun a b =>
          c.sortCmp desc (RowMap.get c.rowMap b) (RowMap.get c.rowMap a) = false)
        (c.StableSort desc out)) ∧
    (∀ (c : Column) (out : List Nat), c.IsNumeric → c.nonNull = false →
      List.Pairwise
        (fun a b =>
          optOptLt (svGet c.cells (RowMap.get c.rowMap b))
            (svGet c.cells (RowMap.get c.rowMap a)) = false)
        (c.StableSort false out)) ∧
    Column.StableSort s4Col false [0, 1, 2, 3, 4] = [3, 0, 1, 2, 4] := by
  refine ⟨?_, ?_, ?_, ?_, by decide⟩
  · intro c desc out
    exact stableSort_perm c.rowMap out (c.sortCmp desc)
  · intro c desc out p hp
    exact stableSort_stable c.rowMap out (c.sortCmp desc) p hp
  · intro c desc out
    obtain ⟨htr, hto⟩ := sortCmp_le_trans_total c desc
    exact stableSort_sorted c.rowMap out (c.sortCmp desc) htr hto
  · intro c out hty hnn
    have hcmp : ∀ a b, c.sortCmp false a b =
        optOptLt (svGet c.cells a) (svGet c.cells b) := by
      intro a b
      rcases hty with h | h | h <;>
        simp [Column.sortCmp, h, Column.IsNullable, hnn]
    have hs := stableSort_sorted c.rowMap out (c.sortCmp false)
      (fun x y z h1 h2 => by
        rw [hcmp] at h1 h2 ⊢
        exact optOptLt_le_trans h1 h2)
      (fun x y => by
        rw [hcmp, hcmp]
        exact optOptLt_total _ _)
    refine hs.imp ?_
    intro a b hab
    rw [hcmp] at hab
    exact hab

/-- C6 witness: the permutation property applied at the `S4` scenario. -/
theorem c6_stableSort_witness :
    (Column.StableSort s4Col false [0, 1, 2, 3, 4]).Perm [0, 1, 2, 3, 4] :=
  c6_stableSort_perm_stable_sorted.1 s4Col false [0, 1, 2, 3, 4]

end PerfettoDb
